import Mathlib

/-!
# rail-connect: seat allocator and booking orchestrator, shallowly embedded

Definitions translate `internal/service/seatManager.go` and
`internal/service/ticketManager.go`. Go maps are modelled as association
lists (`alookup` is map indexing with the comma-ok idiom, `aupdate` is
mutation of an entry through its pointer, `ainsert` is map assignment,
`aerase` is `delete`). Go `int` seat numbers and capacities are modelled
as `Nat` (the program only ever creates and passes non-negative ones);
the `VacantSeats` counter is modelled as `Int` because `UpdateSeat`
decrements it without a guard. `float64` route prices are modelled as
exact rationals: the program never computes with them, it only stores
them and compares against zero.
-/

namespace RailConnect

/-- Association-list lookup: Go map indexing `m[k]` with the comma-ok idiom. -/
def alookup {α β : Type} [DecidableEq α] (k : α) : List (α × β) → Option β
  | [] => none
  | p :: ps => if p.1 = k then some p.2 else alookup k ps

/-- Go map read with the zero value as default (`m[k]` without comma-ok). -/
def alookupD {α β : Type} [DecidableEq α] (k : α) (l : List (α × β)) (d : β) : β :=
  (alookup k l).getD d

/-- Mutation of the entry stored under `k` through its pointer. -/
def aupdate {α β : Type} [DecidableEq α] (k : α) (f : β → β) (l : List (α × β)) :
    List (α × β) :=
  l.map (fun p => if p.1 = k then (p.1, f p.2) else p)

/-- Go map assignment `m[k] = v`: replace the entry if present, else add it. -/
def ainsert {α β : Type} [DecidableEq α] (k : α) (v : β) (l : List (α × β)) :
    List (α × β) :=
  if (alookup k l).isSome then aupdate k (fun _ => v) l else l ++ [(k, v)]

/-- Go `delete(m, k)`. -/
def aerase {α β : Type} [DecidableEq α] (k : α) (l : List (α × β)) : List (α × β) :=
  l.filter (fun p => p.1 ≠ k)

/-- `Seat` from seatManager.go: seat number plus availability flag. -/
structure Seat where
  number : Nat
  available : Bool
deriving DecidableEq

/-- `Section` from seatManager.go. -/
structure Section where
  name : String
  maxSeats : Nat
  seats : List (Nat × Seat)
  vacantSeats : Int
  firstVacant : Nat
deriving DecidableEq

/-- `SeatManager` from seatManager.go (the lock and logger carry no state). -/
structure SeatManager where
  sections : List (String × Section)
  sectionOrder : List String
  nextSectionIdx : Nat
deriving DecidableEq

/-- `config.SectionConfig`. -/
structure SectionConfig where
  name : String
  maxSeats : Nat
deriving DecidableEq

/-- The seat map built by `NewSeatManager`: seats 1..maxSeats, all available. -/
def mkSeats (maxSeats : Nat) : List (Nat × Seat) :=
  (List.range maxSeats).map (fun j => (j + 1, { number := j + 1, available := true }))

/-- One section as built by `NewSeatManager`. -/
def newSection (cfg : SectionConfig) : Section :=
  { name := cfg.name, maxSeats := cfg.maxSeats, seats := mkSeats cfg.maxSeats,
    vacantSeats := (cfg.maxSeats : Int), firstVacant := 1 }

/-- `NewSeatManager`. Faithful for layouts with pairwise distinct section
names, which is what the data model guarantees (a Go map keyed by name
cannot hold two sections of the same name anyway). -/
def newSeatManager (cfgs : List SectionConfig) : SeatManager :=
  { sections := cfgs.map (fun c => (c.name, newSection c)),
    sectionOrder := cfgs.map (fun c => c.name),
    nextSectionIdx := 0 }

/-- The distinct `fmt.Errorf` failures of the three SeatManager operations. -/
inductive SeatErr where
  | noSections
  | noSeats
  | sectionNotFound (name : String)
  | seatNotFound (name : String) (num : Nat)
  | alreadyAvailable (name : String) (num : Nat)
  | notOccupied (name : String) (num : Nat)
  | notAvailable (name : String) (num : Nat)
deriving DecidableEq

/-- Body of the seat scans. The first argument counts the iterations the
`for seatNum <= maxSeats` loop still has left (`maxSeats + 1 - n`), so the
recursion is structural and the function evaluates by reduction. -/
def findAvailGo (seats : List (Nat × Seat)) : Nat → Nat → Option (Nat × Seat)
  | 0, _ => none
  | fuel + 1, n =>
    match alookup n seats with
    | some s => if s.available then some (n, s) else findAvailGo seats fuel (n + 1)
    | none => findAvailGo seats fuel (n + 1)

/-- The inner scan of `AssignSeat`: from `n` up to `maxSeats`, the first key
whose seat exists and is available, together with that seat. -/
def findAvail (seats : List (Nat × Seat)) (maxSeats : Nat) (n : Nat) :
    Option (Nat × Seat) :=
  findAvailGo seats (maxSeats + 1 - n) n

/-- Body of the first-vacant re-scan, with the same loop-bound counter. -/
def scanVacantGo (seats : List (Nat × Seat)) : Nat → Nat → Nat
  | 0, n => n
  | fuel + 1, n =>
    match alookup n seats with
    | some s => if s.available then n else scanVacantGo seats fuel (n + 1)
    | none => scanVacantGo seats fuel (n + 1)

/-- The first-vacant re-scan loop shared by `AssignSeat` and `UpdateSeat`:
walks from `n` up to `maxSeats` and stops at the first available seat,
ending at `maxSeats + 1` when none is found. -/
def scanVacant (seats : List (Nat × Seat)) (maxSeats : Nat) (n : Nat) : Nat :=
  scanVacantGo seats (maxSeats + 1 - n) n

/-- The mutation `AssignSeat` performs on the section it picks: mark
`seatNum` unavailable, decrement the vacancy count, and re-scan the
first-vacant hint from `seatNum + 1` over the already-updated seat map. -/
def Section.assignAt (sec : Section) (seatNum : Nat) : Section :=
  let seats' := aupdate seatNum (fun s => { s with available := false }) sec.seats
  { sec with seats := seats',
             vacantSeats := sec.vacantSeats - 1,
             firstVacant := scanVacant seats' sec.maxSeats (seatNum + 1) }

/-- Body of the round-robin loop, with the remaining iteration count
(`total - i`) as structural argument. -/
def assignLoopGo (total : Nat) : Nat → SeatManager → Nat →
    (Except SeatErr (String × Nat)) × SeatManager
  | 0, sm, _ => (.error .noSeats, sm)
  | fuel + 1, sm, i =>
    let currentIdx := (sm.nextSectionIdx + i) % total
    let sectionName := sm.sectionOrder.getD currentIdx ""
    match alookup sectionName sm.sections with
    | none => assignLoopGo total fuel sm (i + 1)
    | some sec =>
      if sec.vacantSeats ≤ 0 then
        assignLoopGo total fuel sm (i + 1)
      else
        match findAvail sec.seats sec.maxSeats sec.firstVacant with
        | some (seatNum, seat) =>
          (.ok (sec.name, seat.number),
           { sm with sections := aupdate sectionName (fun _ => sec.assignAt seatNum) sm.sections,
                     nextSectionIdx := (currentIdx + 1) % total })
        | none =>
          let sec' : Section := { sec with vacantSeats := 0 }
          assignLoopGo total fuel
            { sm with sections := aupdate sectionName (fun _ => sec') sm.sections }
            (i + 1)

/-- The round-robin loop of `AssignSeat` (`for i := 0; i < totalSections; i++`).
A section name missing from the map is skipped; the Go code would fault
there, and the case is unreachable from construction. -/
def assignLoop (sm : SeatManager) (total : Nat) (i : Nat) :
    (Except SeatErr (String × Nat)) × SeatManager :=
  assignLoopGo total (total - i) sm i

/-- `SeatManager.AssignSeat`. Returns the outcome together with the state the
receiver holds afterwards (the repair path mutates state even on failure). -/
def SeatManager.assignSeat (sm : SeatManager) : (Except SeatErr (String × Nat)) × SeatManager :=
  let totalSections := sm.sectionOrder.length
  if totalSections = 0 then (.error .noSections, sm)
  else assignLoop sm totalSections 0

/-- The mutation `ReleaseSeat` performs on its section: mark `seatNumber`
available, increment the vacancy count, and lower the first-vacant hint to
`seatNumber` when that is smaller. -/
def Section.releaseAt (sec : Section) (seatNumber : Nat) : Section :=
  { sec with seats := aupdate seatNumber (fun s => { s with available := true }) sec.seats,
             vacantSeats := sec.vacantSeats + 1,
             firstVacant := if seatNumber < sec.firstVacant then seatNumber else sec.firstVacant }

/-- `SeatManager.ReleaseSeat`. -/
def SeatManager.releaseSeat (sm : SeatManager) (sectionName : String) (seatNumber : Nat) :
    (Except SeatErr Unit) × SeatManager :=
  match alookup sectionName sm.sections with
  | none => (.error (.sectionNotFound sectionName), sm)
  | some sec =>
    match alookup seatNumber sec.seats with
    | none => (.error (.seatNotFound sectionName seatNumber), sm)
    | some seat =>
      if seat.available then (.error (.alreadyAvailable sectionName seatNumber), sm)
      else
        (.ok (),
         { sm with sections := aupdate sectionName (fun _ => sec.releaseAt seatNumber) sm.sections })

/-- `SeatManager.UpdateSeat`. All validation reads the pre-state; the write
phase applies the source's mutations in order to the shared section map, so
a same-section move aliases exactly as the pointer code does. -/
def SeatManager.updateSeat (sm : SeatManager) (currSeat : Nat) (currSection : String)
    (reqSeat : Nat) (reqSection : String) : (Except SeatErr Unit) × SeatManager :=
  match alookup currSection sm.sections with
  | none => (.error (.sectionNotFound currSection), sm)
  | some oldSectionObj =>
    match alookup reqSection sm.sections with
    | none => (.error (.sectionNotFound reqSection), sm)
    | some newSectionObj =>
      match alookup currSeat oldSectionObj.seats with
      | none => (.error (.seatNotFound currSection currSeat), sm)
      | some oldSeat =>
        if oldSeat.available then (.error (.notOccupied currSection currSeat), sm)
        else
          match alookup reqSeat newSectionObj.seats with
          | none => (.error (.seatNotFound reqSection reqSeat), sm)
          | some newSeat =>
            if !newSeat.available then (.error (.notAvailable reqSection reqSeat), sm)
            else
              let s1 := aupdate currSection
                (fun sec => { sec with
                  seats := aupdate currSeat (fun s => { s with available := true }) sec.seats })
                sm.sections
              let s2 := aupdate reqSection
                (fun sec => { sec with
                  seats := aupdate reqSeat (fun s => { s with available := false }) sec.seats })
                s1
              let s3 := aupdate currSection
                (fun sec => { sec with vacantSeats := sec.vacantSeats + 1 }) s2
              let s4 := aupdate reqSection
                (fun sec => { sec with vacantSeats := sec.vacantSeats - 1 }) s3
              let s5 := aupdate currSection
                (fun sec =>
                  if currSeat < sec.firstVacant then { sec with firstVacant := currSeat }
                  else sec) s4
              let s6 := aupdate reqSection
                (fun sec =>
                  if reqSeat = sec.firstVacant then
                    { sec with firstVacant := scanVacant sec.seats sec.maxSeats (reqSeat + 1) }
                  else sec) s5
              (.ok (), { sm with sections := s6 })

/-- `pb.User`. -/
structure User where
  email : String
  firstName : String
  lastName : String
deriving DecidableEq

/-- `pb.Seat` (a section name plus a seat number). `section` is a Lean
keyword, so the field is `sectionName`. -/
structure PBSeat where
  seatNumber : Nat
  sectionName : String
deriving DecidableEq

/-- `pb.Receipt`. `from`/`to` are Lean keywords, so the fields are
`fromStation`/`toStation`. -/
structure Receipt where
  user : User
  fromStation : String
  toStation : String
  pricePaid : ℚ
  seat : PBSeat
deriving DecidableEq

/-- `pb.PurchaseTicketRequest` (the user pointer may be nil). -/
structure PurchaseTicketRequest where
  user : Option User
  fromStation : String
  toStation : String
deriving DecidableEq

/-- `pb.UpdateUserSeatRequest` (the seat pointer may be nil). -/
structure UpdateUserSeatRequest where
  email : String
  newSeat : Option PBSeat
deriving DecidableEq

/-- `pb.UserSeat`, the per-user payload of GetUsersBySection. -/
structure UserSeat where
  user : User
  allottedSeat : Nat
deriving DecidableEq

/-- The two gRPC status codes the service emits. -/
inductive GrpcCode where
  | invalidArgument
  | notFound
deriving DecidableEq

/-- A `status.Error(code, msg)` value. -/
structure GrpcErr where
  code : GrpcCode
  msg : String
deriving DecidableEq

/-- `TicketManager` from ticketManager.go (lock and logger carry no state). -/
structure TicketManager where
  seatManager : SeatManager
  receipts : List (String × Receipt)
  stationConnection : List (String × ℚ)
deriving DecidableEq

/-- `NewTicketManager`. -/
def newTicketManager (sm : SeatManager) (stations : List (String × ℚ)) : TicketManager :=
  { seatManager := sm, receipts := [], stationConnection := stations }

/-- `TicketManager.PurchaseTicket`. Each operation returns its RPC outcome
together with the state the manager holds afterwards. -/
def TicketManager.purchaseTicket (tm : TicketManager) (req : Option PurchaseTicketRequest) :
    (Except GrpcErr (String × Receipt)) × TicketManager :=
  match req with
  | none => (.error ⟨.invalidArgument, "request is nil"⟩, tm)
  | some r =>
    match r.user with
    | none => (.error ⟨.invalidArgument, "missing required fields"⟩, tm)
    | some u =>
      if u.email = "" ∨ r.fromStation = "" ∨ r.toStation = "" then
        (.error ⟨.invalidArgument, "missing required fields"⟩, tm)
      else
        let connectionStations := r.fromStation ++ "-" ++ r.toStation
        if alookupD connectionStations tm.stationConnection 0 = 0 then
          (.error ⟨.invalidArgument, "invalid station"⟩, tm)
        else
          match tm.seatManager.assignSeat with
          | (.error _, sm') =>
            (.error ⟨.notFound, "failed to assign seat"⟩, { tm with seatManager := sm' })
          | (.ok (secName, seatNum), sm') =>
            let receipt : Receipt :=
              { user := u, fromStation := r.fromStation, toStation := r.toStation,
                pricePaid := alookupD connectionStations tm.stationConnection 0,
                seat := { seatNumber := seatNum, sectionName := secName } }
            (.ok ("Ticket booked successfully", receipt),
             { tm with seatManager := sm', receipts := ainsert u.email receipt tm.receipts })

/-- `TicketManager.GetReceipt` (the request carries only an email). -/
def TicketManager.getReceipt (tm : TicketManager) (req : Option String) :
    (Except GrpcErr Receipt) × TicketManager :=
  match req with
  | none => (.error ⟨.invalidArgument, "request is nil"⟩, tm)
  | some email =>
    if email = "" then (.error ⟨.invalidArgument, "missing required fields"⟩, tm)
    else
      match alookup email tm.receipts with
      | none => (.error ⟨.notFound, "ticket receipt not found"⟩, tm)
      | some receipt => (.ok receipt, tm)

/-- `TicketManager.GetUsersBySection` (the request carries a section name). -/
def TicketManager.getUsersBySection (tm : TicketManager) (req : Option String) :
    (Except GrpcErr (String × List UserSeat)) × TicketManager :=
  match req with
  | none => (.error ⟨.invalidArgument, "request is nil"⟩, tm)
  | some sectionName =>
    if sectionName = "" then (.error ⟨.invalidArgument, "missing required fields"⟩, tm)
    else if (alookup sectionName tm.seatManager.sections).isSome then
      (.ok (sectionName,
        (tm.receipts.filter (fun p => p.2.seat.sectionName = sectionName)).map
          (fun p => { user := p.2.user, allottedSeat := p.2.seat.seatNumber })), tm)
    else (.error ⟨.notFound, "section not found"⟩, tm)

/-- `TicketManager.UpdateUserSeat`. -/
def TicketManager.updateUserSeat (tm : TicketManager) (req : Option UpdateUserSeatRequest) :
    (Except GrpcErr (String × Receipt)) × TicketManager :=
  match req with
  | none => (.error ⟨.invalidArgument, "request is nil"⟩, tm)
  | some r =>
    match r.newSeat with
    | none => (.error ⟨.invalidArgument, "missing required fields"⟩, tm)
    | some ns =>
      if r.email = "" ∨ ns.sectionName = "" ∨ ns.seatNumber = 0 then
        (.error ⟨.invalidArgument, "missing required fields"⟩, tm)
      else
        match alookup r.email tm.receipts with
        | none => (.error ⟨.notFound, "ticket receipt not found"⟩, tm)
        | some receipt =>
          match tm.seatManager.updateSeat receipt.seat.seatNumber receipt.seat.sectionName
              ns.seatNumber ns.sectionName with
          | (.error _, _) => (.error ⟨.notFound, "failed to update seat"⟩, tm)
          | (.ok (), sm') =>
            let receipt' := { receipt with seat := ns }
            (.ok ("Seat updated successfully", receipt'),
             { tm with seatManager := sm',
                       receipts := aupdate r.email (fun _ => receipt') tm.receipts })

/-- `TicketManager.RemoveUser`. -/
def TicketManager.removeUser (tm : TicketManager) (req : Option String) :
    (Except GrpcErr (String × User)) × TicketManager :=
  match req with
  | none => (.error ⟨.invalidArgument, "request is nil"⟩, tm)
  | some email =>
    if email = "" then (.error ⟨.invalidArgument, "missing required fields"⟩, tm)
    else
      match alookup email tm.receipts with
      | none => (.error ⟨.notFound, "ticket receipt not found"⟩, tm)
      | some receipt =>
        match tm.seatManager.releaseSeat receipt.seat.sectionName receipt.seat.seatNumber with
        | (.error _, _) => (.error ⟨.notFound, "failed to release seat"⟩, tm)
        | (.ok (), sm') =>
          (.ok ("Ticket cancelled successfully", receipt.user),
           { tm with seatManager := sm', receipts := aerase email tm.receipts })

/-- Number of this section's seats currently marked available. -/
def Section.countAvail (sec : Section) : Nat :=
  sec.seats.countP (fun p => p.2.available)

/-- Number of this section's seats currently marked unavailable. -/
def Section.countOccupied (sec : Section) : Nat :=
  sec.seats.countP (fun p => !p.2.available)

/-- Total seats marked unavailable across all sections. -/
def SeatManager.totalOccupied (sm : SeatManager) : Nat :=
  (sm.sections.map (fun p => p.2.countOccupied)).sum

/-- The structural invariants a section enjoys in every reachable state:
dense seat keys `1..maxSeats` in order, each seat recording its own key as
its number, an exact vacancy count, and a first-vacant hint bounding every
available seat number from below. -/
def Section.WF (sec : Section) : Prop :=
  sec.seats.map Prod.fst = (List.range sec.maxSeats).map (fun j => j + 1)
  ∧ (∀ p ∈ sec.seats, (p.2).number = p.1)
  ∧ sec.vacantSeats = (sec.countAvail : Int)
  ∧ (∀ p ∈ sec.seats, (p.2).available = true → sec.firstVacant ≤ p.1)

/-- The structural invariants of a whole seat manager in reachable states. -/
def SeatManager.WF (sm : SeatManager) : Prop :=
  sm.sections.map Prod.fst = sm.sectionOrder
  ∧ (∀ p ∈ sm.sections, (p.2).WF ∧ (p.2).name = p.1)
  ∧ sm.sectionOrder.Nodup
  ∧ (sm.sectionOrder ≠ [] → sm.nextSectionIdx < sm.sectionOrder.length)

instance (sec : Section) : Decidable (Section.WF sec) := by
  unfold Section.WF
  infer_instance

instance (sm : SeatManager) : Decidable (SeatManager.WF sm) := by
  unfold SeatManager.WF
  infer_instance

/-- Decidable equality for RPC-style results, so concrete runs of the
model can be checked by evaluation. -/
instance {e a : Type} [DecidableEq e] [DecidableEq a] : DecidableEq (Except e a) := fun x y =>
  match x, y with
  | .ok u, .ok v =>
    if h : u = v then .isTrue (by rw [h]) else .isFalse (by intro hc; cases hc; exact h rfl)
  | .ok _, .error _ => .isFalse (by intro hc; cases hc)
  | .error _, .ok _ => .isFalse (by intro hc; cases hc)
  | .error u, .error v =>
    if h : u = v then .isTrue (by rw [h]) else .isFalse (by intro hc; cases hc; exact h rfl)

/-- Whether the seat stored under key `j` exists and is marked available. -/
def isAvail (seats : List (Nat × Seat)) (j : Nat) : Bool :=
  match alookup j seats with
  | some s => s.available
  | none => false

/-- The net mutation a successful `UpdateSeat` performs on its destination
section (the requested seat's section, when it differs from the source):
mark the seat unavailable, decrement the vacancy count, and re-scan the
first-vacant hint only when it pointed at the taken seat. -/
def Section.moveInAt (sec : Section) (reqSeat : Nat) : Section :=
  let seats' := aupdate reqSeat (fun s => { s with available := false }) sec.seats
  { sec with seats := seats',
             vacantSeats := sec.vacantSeats - 1,
             firstVacant := if reqSeat = sec.firstVacant
               then scanVacant seats' sec.maxSeats (reqSeat + 1)
               else sec.firstVacant }

/-- The net mutation a successful `UpdateSeat` performs when source and
destination are the same section: both seat flags flip, the vacancy count
is incremented then decremented, the hint is first lowered to the freed
seat and then re-scanned when it pointed at the taken seat — exactly the
pointer aliasing of the Go code. -/
def Section.moveWithinAt (sec : Section) (currSeat reqSeat : Nat) : Section :=
  let seats' := aupdate reqSeat (fun s => { s with available := false })
    (aupdate currSeat (fun s => { s with available := true }) sec.seats)
  let fv1 := if currSeat < sec.firstVacant then currSeat else sec.firstVacant
  { sec with seats := seats',
             vacantSeats := sec.vacantSeats + 1 - 1,
             firstVacant := if reqSeat = fv1
               then scanVacant seats' sec.maxSeats (reqSeat + 1)
               else fv1 }

/-- The vacancy count the round-robin loop reads at position `idx`, or 0
when no section is stored under the name at that position. -/
def vacantAt (sm : SeatManager) (idx : Nat) : Int :=
  match alookup (sm.sectionOrder.getD idx "") sm.sections with
  | some sec => sec.vacantSeats
  | none => 0

/-- `n` consecutive `AssignSeat` calls, collecting the outcomes in order. -/
def SeatManager.assignSeats (sm : SeatManager) :
    Nat → List (Except SeatErr (String × Nat)) × SeatManager
  | 0 => ([], sm)
  | n + 1 =>
    let r := sm.assignSeat
    let rs := r.2.assignSeats n
    (r.1 :: rs.1, rs.2)

/-- States reachable from a freshly built manager (with pairwise distinct
section names, as the data model guarantees) by any sequence of the three
allocator operations. Failed calls are covered too: each operation returns
the state the receiver holds afterwards, which for a failed `ReleaseSeat`
or `UpdateSeat` is the unchanged input state. -/
inductive SeatManager.Reachable : SeatManager → Prop where
  | init (cfgs : List SectionConfig) (hnd : (cfgs.map (fun c => c.name)).Nodup) :
      SeatManager.Reachable (newSeatManager cfgs)
  | assign {sm : SeatManager} : sm.Reachable → SeatManager.Reachable (sm.assignSeat).2
  | release {sm : SeatManager} (sectionName : String) (seatNumber : Nat) :
      sm.Reachable → SeatManager.Reachable (sm.releaseSeat sectionName seatNumber).2
  | update {sm : SeatManager} (currSeat : Nat) (currSection : String)
      (reqSeat : Nat) (reqSection : String) :
      sm.Reachable →
      SeatManager.Reachable (sm.updateSeat currSeat currSection reqSeat reqSection).2

/-- States reachable from a freshly built orchestrator by any sequence of
the five public operations, succeeding or failing. -/
inductive TicketManager.Reachable : TicketManager → Prop where
  | init (cfgs : List SectionConfig) (hnd : (cfgs.map (fun c => c.name)).Nodup)
      (stations : List (String × ℚ)) :
      TicketManager.Reachable (newTicketManager (newSeatManager cfgs) stations)
  | purchase {tm : TicketManager} (req : Option PurchaseTicketRequest) :
      tm.Reachable → TicketManager.Reachable (tm.purchaseTicket req).2
  | get {tm : TicketManager} (req : Option String) :
      tm.Reachable → TicketManager.Reachable (tm.getReceipt req).2
  | bySection {tm : TicketManager} (req : Option String) :
      tm.Reachable → TicketManager.Reachable (tm.getUsersBySection req).2
  | update {tm : TicketManager} (req : Option UpdateUserSeatRequest) :
      tm.Reachable → TicketManager.Reachable (tm.updateUserSeat req).2
  | remove {tm : TicketManager} (req : Option String) :
      tm.Reachable → TicketManager.Reachable (tm.removeUser req).2

/-- The email key a purchase request would store its receipt under. -/
def reqEmail : Option PurchaseTicketRequest → String
  | some r =>
    match r.user with
    | some u => u.email
    | none => ""
  | none => ""

/-- Reachability restricted to runs in which no successful purchase is made
for an identity that already holds a receipt (ruling out the silent
overwrite flagged by the spec); all other operations are unrestricted. -/
inductive TicketManager.ReachableNoRebuy : TicketManager → Prop where
  | init (cfgs : List SectionConfig) (hnd : (cfgs.map (fun c => c.name)).Nodup)
      (stations : List (String × ℚ)) :
      TicketManager.ReachableNoRebuy (newTicketManager (newSeatManager cfgs) stations)
  | purchase {tm : TicketManager} (req : Option PurchaseTicketRequest)
      (hnew : ((tm.purchaseTicket req).1.isOk = true →
        alookup (reqEmail req) tm.receipts = none)) :
      tm.ReachableNoRebuy → TicketManager.ReachableNoRebuy (tm.purchaseTicket req).2
  | get {tm : TicketManager} (req : Option String) :
      tm.ReachableNoRebuy → TicketManager.ReachableNoRebuy (tm.getReceipt req).2
  | bySection {tm : TicketManager} (req : Option String) :
      tm.ReachableNoRebuy → TicketManager.ReachableNoRebuy (tm.getUsersBySection req).2
  | update {tm : TicketManager} (req : Option UpdateUserSeatRequest) :
      tm.ReachableNoRebuy → TicketManager.ReachableNoRebuy (tm.updateUserSeat req).2
  | remove {tm : TicketManager} (req : Option String) :
      tm.ReachableNoRebuy → TicketManager.ReachableNoRebuy (tm.removeUser req).2

/-! ## Association-list lemmas -/

section AssocLemmas

variable {α β : Type} [DecidableEq α]

theorem alookup_cons {k : α} {p : α × β} {ps : List (α × β)} :
    alookup k (p :: ps) = if p.1 = k then some p.2 else alookup k ps := rfl

theorem aupdate_cons {k : α} {f : β → β} {p : α × β} {ps : List (α × β)} :
    aupdate k f (p :: ps) = (if p.1 = k then (p.1, f p.2) else p) :: aupdate k f ps := rfl

theorem alookup_eq_none_iff {k : α} {l : List (α × β)} :
    alookup k l = none ↔ k ∉ l.map Prod.fst := by
  induction l with
  | nil => simp [alookup]
  | cons p ps ih =>
    by_cases h : p.1 = k
    · simp [alookup_cons, h]
    · simp [alookup_cons, h, ih, Ne.symm h]

theorem alookup_isSome_iff {k : α} {l : List (α × β)} :
    (alookup k l).isSome = true ↔ k ∈ l.map Prod.fst := by
  rcases h : alookup k l with _ | v
  · rw [alookup_eq_none_iff] at h
    simp [h]
  · have : k ∈ l.map Prod.fst := by
      by_contra hk
      rw [← alookup_eq_none_iff (l := l) (k := k)] at hk
      rw [h] at hk
      cases hk
    simp [this]

theorem alookup_mem {k : α} {v : β} {l : List (α × β)} (h : alookup k l = some v) :
    (k, v) ∈ l := by
  induction l with
  | nil => cases h
  | cons p ps ih =>
    by_cases hp : p.1 = k
    · rw [alookup_cons, if_pos hp] at h
      cases h
      subst hp
      exact List.mem_cons_self p ps
    · rw [alookup_cons, if_neg hp] at h
      exact List.mem_cons_of_mem _ (ih h)

theorem aupdate_keys {k : α} {f : β → β} {l : List (α × β)} :
    (aupdate k f l).map Prod.fst = l.map Prod.fst := by
  induction l with
  | nil => rfl
  | cons p ps ih =>
    rw [aupdate_cons, List.map_cons, List.map_cons, ih]
    by_cases h : p.1 = k <;> simp [h]

theorem aupdate_eq_of_not_mem {k : α} {f : β → β} {l : List (α × β)}
    (h : k ∉ l.map Prod.fst) : aupdate k f l = l := by
  induction l with
  | nil => rfl
  | cons p ps ih =>
    simp only [List.map_cons, List.mem_cons, not_or] at h
    rw [aupdate_cons, if_neg (fun hc => h.1 hc.symm), ih h.2]

theorem alookup_aupdate_self {k : α} {f : β → β} {l : List (α × β)} :
    alookup k (aupdate k f l) = (alookup k l).map f := by
  induction l with
  | nil => rfl
  | cons p ps ih =>
    rw [aupdate_cons, alookup_cons, alookup_cons]
    by_cases h : p.1 = k
    · simp [h]
    · simp [h, ih]

theorem alookup_aupdate_ne {k k' : α} (h : k' ≠ k) {f : β → β} {l : List (α × β)} :
    alookup k' (aupdate k f l) = alookup k' l := by
  induction l with
  | nil => rfl
  | cons p ps ih =>
    rw [aupdate_cons, alookup_cons, alookup_cons]
    by_cases hq : p.1 = k'
    · have hpk : ¬ p.1 = k := fun hc => h (by rw [← hq, hc])
      simp [hpk, hq, h]
    · by_cases hp : p.1 = k <;> simp [hp, hq, ih, Ne.symm h]

theorem mem_aupdate {k : α} {f : β → β} {l : List (α × β)} {p : α × β}
    (h : p ∈ aupdate k f l) :
    (p ∈ l ∧ p.1 ≠ k) ∨ ∃ v, (k, v) ∈ l ∧ p = (k, f v) := by
  rcases List.mem_map.mp h with ⟨q, hq, hpq⟩
  by_cases hqk : q.1 = k
  · right
    rw [if_pos hqk] at hpq
    refine ⟨q.2, ?_, ?_⟩
    · rw [← hqk]
      exact hq
    · rw [← hpq, hqk]
  · left
    rw [if_neg hqk] at hpq
    rw [← hpq]
    exact ⟨hq, hqk⟩

theorem alookup_of_mem_nodup {k : α} {v : β} {l : List (α × β)}
    (hnd : (l.map Prod.fst).Nodup) (h : (k, v) ∈ l) : alookup k l = some v := by
  induction l with
  | nil => cases h
  | cons p ps ih =>
    simp only [List.map_cons, List.nodup_cons] at hnd
    rcases List.mem_cons.mp h with rfl | hmem
    · rw [alookup_cons, if_pos rfl]
    · have hpk : ¬ p.1 = k := by
        intro hc
        exact hnd.1 (hc ▸ List.mem_map_of_mem Prod.fst hmem)
      rw [alookup_cons, if_neg hpk]
      exact ih hnd.2 hmem

theorem aupdate_fuse {k : α} {f g : β → β} {l : List (α × β)} :
    aupdate k g (aupdate k f l) = aupdate k (fun v => g (f v)) l := by
  unfold aupdate
  rw [List.map_map]
  apply List.map_congr_left
  intro p _
  by_cases hp : p.1 = k <;> simp [hp]

theorem aupdate_comm {k k' : α} (h : k ≠ k') {f g : β → β} {l : List (α × β)} :
    aupdate k' g (aupdate k f l) = aupdate k f (aupdate k' g l) := by
  unfold aupdate
  rw [List.map_map, List.map_map]
  apply List.map_congr_left
  intro p _
  by_cases hp : p.1 = k
  · have : ¬ p.1 = k' := fun hc => h (by rw [← hp, hc])
    simp [hp, this, h, Ne.symm h]
  · by_cases hq : p.1 = k' <;> simp [hp, hq, h, Ne.symm h]

theorem aupdate_split {k : α} {v : β} {l : List (α × β)}
    (hnd : (l.map Prod.fst).Nodup) (h : alookup k l = some v) (f : β → β) :
    ∃ l1 l2, l = l1 ++ (k, v) :: l2 ∧ aupdate k f l = l1 ++ (k, f v) :: l2 ∧
      k ∉ l1.map Prod.fst ∧ k ∉ l2.map Prod.fst := by
  induction l with
  | nil => cases h
  | cons p ps ih =>
    simp only [List.map_cons, List.nodup_cons] at hnd
    by_cases hp : p.1 = k
    · rw [alookup_cons, if_pos hp] at h
      cases h
      refine ⟨[], ps, ?_, ?_, by simp, hp ▸ hnd.1⟩
      · rw [List.nil_append, ← hp]
      · rw [List.nil_append, aupdate_cons, if_pos hp, aupdate_eq_of_not_mem (hp ▸ hnd.1), ← hp]
    · rw [alookup_cons, if_neg hp] at h
      rcases ih hnd.2 h with ⟨l1, l2, hl, hu, h1, h2⟩
      refine ⟨p :: l1, l2, by rw [List.cons_append, ← hl], ?_, ?_, h2⟩
      · rw [List.cons_append, aupdate_cons, if_neg hp, hu]
      · simp only [List.map_cons, List.mem_cons, not_or]
        exact ⟨fun hc => hp hc.symm, h1⟩

end AssocLemmas

/-! ## Scan lemmas -/

theorem findAvail_eq (seats : List (Nat × Seat)) (maxSeats n : Nat) :
    findAvail seats maxSeats n =
      if n ≤ maxSeats then
        match alookup n seats with
        | some s => if s.available then some (n, s) else findAvail seats maxSeats (n + 1)
        | none => findAvail seats maxSeats (n + 1)
      else none := by
  by_cases h : n ≤ maxSeats
  · rw [if_pos h]
    show findAvailGo seats (maxSeats + 1 - n) n = _
    have hk : maxSeats + 1 - n = (maxSeats + 1 - (n + 1)) + 1 := by omega
    rw [hk]
    rfl
  · rw [if_neg h]
    show findAvailGo seats (maxSeats + 1 - n) n = none
    have hk : maxSeats + 1 - n = 0 := by omega
    rw [hk]
    rfl

theorem scanVacant_eq (seats : List (Nat × Seat)) (maxSeats n : Nat) :
    scanVacant seats maxSeats n =
      if n ≤ maxSeats then
        match alookup n seats with
        | some s => if s.available then n else scanVacant seats maxSeats (n + 1)
        | none => scanVacant seats maxSeats (n + 1)
      else n := by
  by_cases h : n ≤ maxSeats
  · rw [if_pos h]
    show scanVacantGo seats (maxSeats + 1 - n) n = _
    have hk : maxSeats + 1 - n = (maxSeats + 1 - (n + 1)) + 1 := by omega
    rw [hk]
    rfl
  · rw [if_neg h]
    show scanVacantGo seats (maxSeats + 1 - n) n = n
    have hk : maxSeats + 1 - n = 0 := by omega
    rw [hk]
    rfl

theorem assignLoop_eq (sm : SeatManager) (total i : Nat) :
    assignLoop sm total i =
      if i < total then
        let currentIdx := (sm.nextSectionIdx + i) % total
        let sectionName := sm.sectionOrder.getD currentIdx ""
        match alookup sectionName sm.sections with
        | none => assignLoop sm total (i + 1)
        | some sec =>
          if sec.vacantSeats ≤ 0 then
            assignLoop sm total (i + 1)
          else
            match findAvail sec.seats sec.maxSeats sec.firstVacant with
            | some (seatNum, seat) =>
              (.ok (sec.name, seat.number),
               { sm with
                 sections := aupdate sectionName (fun _ => sec.assignAt seatNum) sm.sections,
                 nextSectionIdx := (currentIdx + 1) % total })
            | none =>
              assignLoop
                { sm with
                  sections := aupdate sectionName
                    (fun _ => ({ sec with vacantSeats := 0 } : Section)) sm.sections }
                total (i + 1)
      else (.error .noSeats, sm) := by
  by_cases h : i < total
  · rw [if_pos h]
    show assignLoopGo total (total - i) sm i = _
    have hk : total - i = (total - (i + 1)) + 1 := by omega
    rw [hk]
    rfl
  · rw [if_neg h]
    show assignLoopGo total (total - i) sm i = _
    have hk : total - i = 0 := by omega
    rw [hk]
    rfl

theorem findAvail_eq_some {seats : List (Nat × Seat)} {maxSeats : Nat} {n m : Nat} {s : Seat}
    (h : findAvail seats maxSeats n = some (m, s)) :
    n ≤ m ∧ m ≤ maxSeats ∧ alookup m seats = some s ∧ s.available = true ∧
      ∀ j, n ≤ j → j < m → isAvail seats j = false := by
  rw [findAvail_eq] at h
  split at h
  case isTrue hle =>
    rcases ha : alookup n seats with _ | s0
    · simp only [ha] at h
      have ih := findAvail_eq_some (n := n + 1) h
      refine ⟨by omega, ih.2.1, ih.2.2.1, ih.2.2.2.1, fun j h1 h2 => ?_⟩
      rcases Nat.eq_or_lt_of_le h1 with rfl | hlt
      · simp [isAvail, ha]
      · exact ih.2.2.2.2 j hlt h2
    · simp only [ha] at h
      by_cases hs : s0.available
      · rw [if_pos hs] at h
        simp only [Option.some.injEq, Prod.mk.injEq] at h
        obtain ⟨rfl, rfl⟩ := h
        exact ⟨le_refl _, hle, ha, hs, fun j h1 h2 => absurd h1 (by omega)⟩
      · rw [if_neg hs] at h
        have ih := findAvail_eq_some (n := n + 1) h
        refine ⟨by omega, ih.2.1, ih.2.2.1, ih.2.2.2.1, fun j h1 h2 => ?_⟩
        rcases Nat.eq_or_lt_of_le h1 with rfl | hlt
        · simp [isAvail, ha, hs]
        · exact ih.2.2.2.2 j hlt h2
  case isFalse => cases h
termination_by maxSeats + 1 - n
decreasing_by all_goals omega

theorem findAvail_eq_none {seats : List (Nat × Seat)} {maxSeats : Nat} {n : Nat}
    (h : findAvail seats maxSeats n = none) :
    ∀ j, n ≤ j → j ≤ maxSeats → isAvail seats j = false := by
  intro j h1 h2
  rw [findAvail_eq] at h
  split at h
  case isTrue hle =>
    rcases ha : alookup n seats with _ | s0
    · simp only [ha] at h
      rcases Nat.eq_or_lt_of_le h1 with rfl | hlt
      · simp [isAvail, ha]
      · exact findAvail_eq_none (n := n + 1) h j hlt h2
    · simp only [ha] at h
      by_cases hs : s0.available
      · rw [if_pos hs] at h
        cases h
      · rw [if_neg hs] at h
        rcases Nat.eq_or_lt_of_le h1 with rfl | hlt
        · simp [isAvail, ha, hs]
        · exact findAvail_eq_none (n := n + 1) h j hlt h2
  case isFalse hgt => omega
termination_by maxSeats + 1 - n
decreasing_by all_goals omega

theorem scanVacant_le_of_avail {seats : List (Nat × Seat)} {maxSeats j n : Nat}
    (hj : isAvail seats j = true) (hn : n ≤ j) (hjm : j ≤ maxSeats) :
    scanVacant seats maxSeats n ≤ j := by
  rw [scanVacant_eq]
  split
  case isTrue hle =>
    rcases ha : alookup n seats with _ | s0
    · simp only [ha]
      have hne : n ≠ j := by
        intro hc
        rw [← hc] at hj
        simp [isAvail, ha] at hj
      exact scanVacant_le_of_avail hj (by omega) hjm
    · simp only [ha]
      by_cases hs : s0.available
      · rw [if_pos hs]
        exact hn
      · have hne : n ≠ j := by
          intro hc
          rw [← hc] at hj
          simp [isAvail, ha, hs] at hj
        rw [if_neg hs]
        exact scanVacant_le_of_avail hj (by omega) hjm
  case isFalse hgt => omega
termination_by maxSeats + 1 - n
decreasing_by all_goals omega

/-! ## Counting lemmas -/

theorem countP_avail_set_false {seats : List (Nat × Seat)} {m : Nat} {s : Seat}
    (hnd : (seats.map Prod.fst).Nodup) (h : alookup m seats = some s)
    (hs : s.available = true) :
    (aupdate m (fun x => { x with available := false }) seats).countP
        (fun p => (p.2).available) + 1
      = seats.countP (fun p => (p.2).available) := by
  rcases aupdate_split hnd h (fun x => { x with available := false }) with ⟨l1, l2, hl, hu, _, _⟩
  rw [hu, hl]
  simp [List.countP_append, List.countP_cons, hs]
  omega

theorem countP_avail_set_true {seats : List (Nat × Seat)} {m : Nat} {s : Seat}
    (hnd : (seats.map Prod.fst).Nodup) (h : alookup m seats = some s)
    (hs : s.available = false) :
    (aupdate m (fun x => { x with available := true }) seats).countP
        (fun p => (p.2).available)
      = seats.countP (fun p => (p.2).available) + 1 := by
  rcases aupdate_split hnd h (fun x => { x with available := true }) with ⟨l1, l2, hl, hu, _, _⟩
  rw [hu, hl]
  simp [List.countP_append, List.countP_cons, hs]
  omega

theorem countP_occ_set_false {seats : List (Nat × Seat)} {m : Nat} {s : Seat}
    (hnd : (seats.map Prod.fst).Nodup) (h : alookup m seats = some s)
    (hs : s.available = true) :
    (aupdate m (fun x => { x with available := false }) seats).countP
        (fun p => !(p.2).available)
      = seats.countP (fun p => !(p.2).available) + 1 := by
  rcases aupdate_split hnd h (fun x => { x with available := false }) with ⟨l1, l2, hl, hu, _, _⟩
  rw [hu, hl]
  simp [List.countP_append, List.countP_cons, hs]
  omega

theorem countP_occ_set_true {seats : List (Nat × Seat)} {m : Nat} {s : Seat}
    (hnd : (seats.map Prod.fst).Nodup) (h : alookup m seats = some s)
    (hs : s.available = false) :
    (aupdate m (fun x => { x with available := true }) seats).countP
        (fun p => !(p.2).available) + 1
      = seats.countP (fun p => !(p.2).available) := by
  rcases aupdate_split hnd h (fun x => { x with available := true }) with ⟨l1, l2, hl, hu, _, _⟩
  rw [hu, hl]
  simp [List.countP_append, List.countP_cons, hs]
  omega

/-- Replacing one section changes the total occupied count by that
section's own change. -/
theorem totalOccupied_aupdate {secs : List (String × Section)} {name : String} {sec : Section}
    (hnd : (secs.map Prod.fst).Nodup) (h : alookup name secs = some sec) (g : Section → Section) :
    ((aupdate name g secs).map (fun p => (p.2).countOccupied)).sum + sec.countOccupied
      = (secs.map (fun p => (p.2).countOccupied)).sum + (g sec).countOccupied := by
  rcases aupdate_split hnd h g with ⟨l1, l2, hl, hu, _, _⟩
  rw [hu, hl]
  simp [List.map_append, List.sum_append]
  omega

/-! ## Section invariant lemmas -/

theorem Section.keys_nodup {sec : Section} (hw : sec.WF) :
    (sec.seats.map Prod.fst).Nodup := by
  rw [hw.1]
  exact List.Nodup.map (fun a b h => by omega) (List.nodup_range _)

theorem Section.key_range {sec : Section} (hw : sec.WF) {p : Nat × Seat}
    (hp : p ∈ sec.seats) : 1 ≤ p.1 ∧ p.1 ≤ sec.maxSeats := by
  have hmem : p.1 ∈ sec.seats.map Prod.fst := List.mem_map_of_mem Prod.fst hp
  rw [hw.1] at hmem
  rcases List.mem_map.mp hmem with ⟨j, hj, hje⟩
  rw [List.mem_range] at hj
  omega

theorem findAvail_isSome_of_vacant {sec : Section} (hw : sec.WF)
    (hv : 0 < sec.vacantSeats) :
    ∃ m s, findAvail sec.seats sec.maxSeats sec.firstVacant = some (m, s) := by
  have hpos : 0 < sec.seats.countP (fun p => (p.2).available) := by
    have := hw.2.2.1
    rw [Section.countAvail] at this
    omega
  rw [List.countP_pos_iff] at hpos
  rcases hpos with ⟨p, hp, hpa⟩
  have hpa' : (p.2).available = true := hpa
  rcases hfa : findAvail sec.seats sec.maxSeats sec.firstVacant with _ | ⟨m, s⟩
  · exfalso
    have hnone := findAvail_eq_none hfa p.1 (hw.2.2.2 p hp hpa') (sec.key_range hw hp).2
    have hlp : alookup p.1 sec.seats = some p.2 :=
      alookup_of_mem_nodup (sec.keys_nodup hw) hp
    simp [isAvail, hlp, hpa'] at hnone
  · exact ⟨m, s, rfl⟩

theorem findAvail_least {sec : Section} (hw : sec.WF) {m : Nat} {s : Seat}
    (hf : findAvail sec.seats sec.maxSeats sec.firstVacant = some (m, s)) :
    alookup m sec.seats = some s ∧ s.available = true ∧ s.number = m ∧
      1 ≤ m ∧ m ≤ sec.maxSeats ∧
      ∀ p ∈ sec.seats, (p.2).available = true → m ≤ p.1 := by
  have hspec := findAvail_eq_some hf
  have hm := hspec.2.2.1
  have hmem := alookup_mem hm
  refine ⟨hm, hspec.2.2.2.1, hw.2.1 (m, s) hmem, (sec.key_range hw hmem).1,
    hspec.2.1, ?_⟩
  intro p hp hpa
  by_contra hlt
  push_neg at hlt
  have hfv : sec.firstVacant ≤ p.1 := hw.2.2.2 p hp hpa
  have hfalse := hspec.2.2.2.2 p.1 hfv hlt
  have hlp : alookup p.1 sec.seats = some p.2 :=
    alookup_of_mem_nodup (sec.keys_nodup hw) hp
  simp [isAvail, hlp, hpa] at hfalse

theorem Section.assignAt_spec {sec : Section} {m : Nat} {s : Seat} (hw : sec.WF)
    (hf : findAvail sec.seats sec.maxSeats sec.firstVacant = some (m, s)) :
    (sec.assignAt m).WF ∧ (sec.assignAt m).countAvail + 1 = sec.countAvail ∧
      (sec.assignAt m).countOccupied = sec.countOccupied + 1 := by
  have hL := findAvail_least hw hf
  have hnd := sec.keys_nodup hw
  have hca : (sec.assignAt m).countAvail + 1 = sec.countAvail :=
    countP_avail_set_false hnd hL.1 hL.2.1
  have hco : (sec.assignAt m).countOccupied = sec.countOccupied + 1 :=
    countP_occ_set_false hnd hL.1 hL.2.1
  refine ⟨⟨?_, ?_, ?_, ?_⟩, hca, hco⟩
  · show (aupdate m (fun x => { x with available := false }) sec.seats).map Prod.fst
      = (List.range sec.maxSeats).map (fun j => j + 1)
    rw [aupdate_keys]
    exact hw.1
  · intro p hp
    replace hp : p ∈ aupdate m (fun x => { x with available := false }) sec.seats := hp
    rcases mem_aupdate hp with ⟨hmem, _⟩ | ⟨v, hv, rfl⟩
    · exact hw.2.1 p hmem
    · have h1 := alookup_of_mem_nodup hnd hv
      rw [hL.1] at h1
      have hvs : v = s := (Option.some_inj.mp h1).symm
      subst hvs
      exact hw.2.1 (m, v) hv
  · show sec.vacantSeats - 1 = ((sec.assignAt m).countAvail : Int)
    have hv := hw.2.2.1
    omega
  · intro p hp hpa
    replace hp : p ∈ aupdate m (fun x => { x with available := false }) sec.seats := hp
    rcases mem_aupdate hp with ⟨hmem, hne⟩ | ⟨v, hv, rfl⟩
    · have hge : m ≤ p.1 := hL.2.2.2.2.2 p hmem hpa
      have hgt : m + 1 ≤ p.1 := by omega
      have hle : p.1 ≤ sec.maxSeats := (sec.key_range hw hmem).2
      have hnd' : ((aupdate m (fun x => { x with available := false }) sec.seats).map
          Prod.fst).Nodup := by
        rw [aupdate_keys]
        exact hnd
      have hlp := alookup_of_mem_nodup hnd' hp
      have hav : isAvail (aupdate m (fun x => { x with available := false }) sec.seats)
          p.1 = true := by
        simp [isAvail, hlp, hpa]
      exact scanVacant_le_of_avail hav hgt hle
    · simp at hpa

theorem Section.releaseAt_spec {sec : Section} {n : Nat} {s : Seat} (hw : sec.WF)
    (h : alookup n sec.seats = some s) (hs : s.available = false) :
    (sec.releaseAt n).WF ∧ (sec.releaseAt n).countAvail = sec.countAvail + 1 ∧
      (sec.releaseAt n).countOccupied + 1 = sec.countOccupied := by
  have hnd := sec.keys_nodup hw
  have hca : (sec.releaseAt n).countAvail = sec.countAvail + 1 :=
    countP_avail_set_true hnd h hs
  refine ⟨⟨?_, ?_, ?_, ?_⟩, hca, countP_occ_set_true hnd h hs⟩
  · show (aupdate n (fun x => { x with available := true }) sec.seats).map Prod.fst
      = (List.range sec.maxSeats).map (fun j => j + 1)
    rw [aupdate_keys]
    exact hw.1
  · intro p hp
    replace hp : p ∈ aupdate n (fun x => { x with available := true }) sec.seats := hp
    rcases mem_aupdate hp with ⟨hmem, _⟩ | ⟨v, hv, rfl⟩
    · exact hw.2.1 p hmem
    · exact hw.2.1 (n, v) hv
  · show sec.vacantSeats + 1 = ((sec.releaseAt n).countAvail : Int)
    have hv := hw.2.2.1
    omega
  · intro p hp hpa
    replace hp : p ∈ aupdate n (fun x => { x with available := true }) sec.seats := hp
    rcases mem_aupdate hp with ⟨hmem, hne⟩ | ⟨v, hv, rfl⟩
    · have := hw.2.2.2 p hmem hpa
      show (if n < sec.firstVacant then n else sec.firstVacant) ≤ p.1
      split <;> omega
    · show (if n < sec.firstVacant then n else sec.firstVacant) ≤ n
      split <;> omega

theorem Section.moveInAt_spec {sec : Section} {n : Nat} {s : Seat} (hw : sec.WF)
    (h : alookup n sec.seats = some s) (hs : s.available = true) :
    (sec.moveInAt n).WF ∧ (sec.moveInAt n).countAvail + 1 = sec.countAvail ∧
      (sec.moveInAt n).countOccupied = sec.countOccupied + 1 := by
  have hnd := sec.keys_nodup hw
  have hca : (sec.moveInAt n).countAvail + 1 = sec.countAvail :=
    countP_avail_set_false hnd h hs
  refine ⟨⟨?_, ?_, ?_, ?_⟩, hca, countP_occ_set_false hnd h hs⟩
  · show (aupdate n (fun x => { x with available := false }) sec.seats).map Prod.fst
      = (List.range sec.maxSeats).map (fun j => j + 1)
    rw [aupdate_keys]
    exact hw.1
  · intro p hp
    replace hp : p ∈ aupdate n (fun x => { x with available := false }) sec.seats := hp
    rcases mem_aupdate hp with ⟨hmem, _⟩ | ⟨v, hv, rfl⟩
    · exact hw.2.1 p hmem
    · exact hw.2.1 (n, v) hv
  · show sec.vacantSeats - 1 = ((sec.moveInAt n).countAvail : Int)
    have hv := hw.2.2.1
    omega
  · intro p hp hpa
    replace hp : p ∈ aupdate n (fun x => { x with available := false }) sec.seats := hp
    rcases mem_aupdate hp with ⟨hmem, hne⟩ | ⟨v, hv, rfl⟩
    · have hfv : sec.firstVacant ≤ p.1 := hw.2.2.2 p hmem hpa
      show (if n = sec.firstVacant then _ else sec.firstVacant) ≤ p.1
      split
      case isTrue heq =>
        have hgt : n + 1 ≤ p.1 := by omega
        have hle : p.1 ≤ sec.maxSeats := (sec.key_range hw hmem).2
        have hnd' : ((aupdate n (fun x => { x with available := false }) sec.seats).map
            Prod.fst).Nodup := by
          rw [aupdate_keys]
          exact hnd
        have hlp := alookup_of_mem_nodup hnd' hp
        have hav : isAvail (aupdate n (fun x => { x with available := false }) sec.seats)
            p.1 = true := by
          simp [isAvail, hlp, hpa]
        exact scanVacant_le_of_avail hav hgt hle
      case isFalse => exact hfv
    · simp at hpa

theorem Section.moveWithinAt_spec {sec : Section} {c r : Nat} {so sn : Seat} (hw : sec.WF)
    (hco : alookup c sec.seats = some so) (hso : so.available = false)
    (hrn : alookup r sec.seats = some sn) (hsn : sn.available = true) :
    (sec.moveWithinAt c r).WF ∧ (sec.moveWithinAt c r).countAvail = sec.countAvail ∧
      (sec.moveWithinAt c r).countOccupied = sec.countOccupied := by
  have hnd := sec.keys_nodup hw
  have hcr : c ≠ r := by
    intro hc
    rw [hc, hrn] at hco
    have := Option.some_inj.mp hco
    rw [this, hso] at hsn
    cases hsn
  have hnd1 : ((aupdate c (fun x => { x with available := true }) sec.seats).map
      Prod.fst).Nodup := by
    rw [aupdate_keys]
    exact hnd
  have hrn1 : alookup r (aupdate c (fun x => { x with available := true }) sec.seats)
      = some sn := by
    rw [alookup_aupdate_ne (Ne.symm hcr)]
    exact hrn
  have hca1 := countP_avail_set_true hnd hco hso
  have hca2 := countP_avail_set_false hnd1 hrn1 hsn
  have hoc1 := countP_occ_set_true hnd hco hso
  have hoc2 := countP_occ_set_false hnd1 hrn1 hsn
  have hca : (sec.moveWithinAt c r).countAvail = sec.countAvail := by
    show (aupdate r (fun x => { x with available := false })
      (aupdate c (fun x => { x with available := true }) sec.seats)).countP
        (fun p => (p.2).available) = sec.seats.countP (fun p => (p.2).available)
    omega
  have hoc : (sec.moveWithinAt c r).countOccupied = sec.countOccupied := by
    show (aupdate r (fun x => { x with available := false })
      (aupdate c (fun x => { x with available := true }) sec.seats)).countP
        (fun p => !(p.2).available) = sec.seats.countP (fun p => !(p.2).available)
    omega
  refine ⟨⟨?_, ?_, ?_, ?_⟩, hca, hoc⟩
  · show (aupdate r (fun x => { x with available := false })
      (aupdate c (fun x => { x with available := true }) sec.seats)).map Prod.fst
      = (List.range sec.maxSeats).map (fun j => j + 1)
    rw [aupdate_keys, aupdate_keys]
    exact hw.1
  · intro p hp
    replace hp : p ∈ aupdate r (fun x => { x with available := false })
      (aupdate c (fun x => { x with available := true }) sec.seats) := hp
    rcases mem_aupdate hp with ⟨hp1, _⟩ | ⟨v, hv1, rfl⟩
    · rcases mem_aupdate hp1 with ⟨hmem, _⟩ | ⟨v, hv, rfl⟩
      · exact hw.2.1 p hmem
      · exact hw.2.1 (c, v) hv
    · rcases mem_aupdate hv1 with ⟨hmem, _⟩ | ⟨w, hw2, heq⟩
      · exact hw.2.1 (r, v) hmem
      · have hrc : r = c := congrArg Prod.fst heq
        exact absurd hrc.symm hcr
  · show sec.vacantSeats + 1 - 1 = ((sec.moveWithinAt c r).countAvail : Int)
    have hv := hw.2.2.1
    rw [hca]
    omega
  · intro p hp hpa
    replace hp : p ∈ aupdate r (fun x => { x with available := false })
      (aupdate c (fun x => { x with available := true }) sec.seats) := hp
    have hkey : 1 ≤ p.1 ∧ p.1 ≤ sec.maxSeats := by
      have hmem : p.1 ∈ ((aupdate r (fun x => { x with available := false })
        (aupdate c (fun x => { x with available := true }) sec.seats)).map Prod.fst) :=
        List.mem_map_of_mem Prod.fst hp
      rw [aupdate_keys, aupdate_keys, hw.1] at hmem
      rcases List.mem_map.mp hmem with ⟨j, hj, hje⟩
      rw [List.mem_range] at hj
      omega
    have hnd2 : ((aupdate r (fun x => { x with available := false })
        (aupdate c (fun x => { x with available := true }) sec.seats)).map
        Prod.fst).Nodup := by
      rw [aupdate_keys, aupdate_keys]
      exact hnd
    have hlow : (if c < sec.firstVacant then c else sec.firstVacant) ≤ p.1 ∧ p.1 ≠ r := by
      rcases mem_aupdate hp with ⟨hp1, hner⟩ | ⟨v, hv1, rfl⟩
      · rcases mem_aupdate hp1 with ⟨hmem, hnec⟩ | ⟨v, hv, rfl⟩
        · have := hw.2.2.2 p hmem hpa
          constructor
          · split <;> omega
          · exact hner
        · constructor
          · show (if c < sec.firstVacant then c else sec.firstVacant) ≤ c
            split <;> omega
          · exact hner
      · simp at hpa
    show (if r = (if c < sec.firstVacant then c else sec.firstVacant)
        then scanVacant (aupdate r (fun x => { x with available := false })
          (aupdate c (fun x => { x with available := true }) sec.seats))
          sec.maxSeats (r + 1)
        else (if c < sec.firstVacant then c else sec.firstVacant)) ≤ p.1
    by_cases hreq : r = (if c < sec.firstVacant then c else sec.firstVacant)
    · rw [if_pos hreq]
      have hgt : r + 1 ≤ p.1 := by
        rcases hlow with ⟨hle, hner⟩
        omega
      have hlp := alookup_of_mem_nodup hnd2 hp
      have hav : isAvail (aupdate r (fun x => { x with available := false })
          (aupdate c (fun x => { x with available := true }) sec.seats)) p.1 = true := by
        simp [isAvail, hlp, hpa]
      exact scanVacant_le_of_avail hav hgt hkey.2
    · rw [if_neg hreq]
      exact hlow.1

/-! ## Manager-level lemmas -/

theorem SeatManager.WF_lookup {sm : SeatManager} (hw : sm.WF) {name : String}
    {sec : Section} (h : alookup name sm.sections = some sec) :
    sec.WF ∧ sec.name = name :=
  hw.2.1 (name, sec) (alookup_mem h)

theorem SeatManager.lookup_order {sm : SeatManager} (hw : sm.WF) {idx : Nat}
    (hidx : idx < sm.sectionOrder.length) :
    ∃ sec, alookup (sm.sectionOrder.getD idx "") sm.sections = some sec := by
  have hmem : sm.sectionOrder.getD idx "" ∈ sm.sectionOrder := by
    rw [List.getD_eq_getElem sm.sectionOrder "" hidx]
    exact List.getElem_mem hidx
  have hsome : (alookup (sm.sectionOrder.getD idx "") sm.sections).isSome = true := by
    rw [alookup_isSome_iff, hw.1]
    exact hmem
  rcases Option.isSome_iff_exists.mp hsome with ⟨sec, hsec⟩
  exact ⟨sec, hsec⟩

theorem aupdate_congr_of_lookup {α β : Type} [DecidableEq α] {k : α} {v : β}
    {l : List (α × β)} (hnd : (l.map Prod.fst).Nodup) (h : alookup k l = some v)
    (f : β → β) : aupdate k f l = aupdate k (fun _ => f v) l := by
  induction l with
  | nil => rfl
  | cons p ps ih =>
    simp only [List.map_cons, List.nodup_cons] at hnd
    by_cases hp : p.1 = k
    · rw [alookup_cons, if_pos hp] at h
      have hv : p.2 = v := Option.some_inj.mp h
      rw [aupdate_cons, aupdate_cons, if_pos hp, if_pos hp, hv,
        aupdate_eq_of_not_mem (hp ▸ hnd.1), aupdate_eq_of_not_mem (hp ▸ hnd.1)]
    · rw [alookup_cons, if_neg hp] at h
      rw [aupdate_cons, aupdate_cons, if_neg hp, if_neg hp, ih hnd.2 h]

theorem assignLoop_stop {sm : SeatManager} {total i : Nat} (h : ¬ i < total) :
    assignLoop sm total i = (.error .noSeats, sm) := by
  rw [assignLoop_eq]
  simp [h]

theorem assignLoop_skip {sm : SeatManager} {total i : Nat} (h : i < total)
    {sec : Section}
    (hl : alookup (sm.sectionOrder.getD ((sm.nextSectionIdx + i) % total) "") sm.sections
      = some sec) (hv : sec.vacantSeats ≤ 0) :
    assignLoop sm total i = assignLoop sm total (i + 1) := by
  rw [assignLoop_eq]
  simp only [if_pos h, hl]
  rw [if_pos hv]

theorem assignLoop_hit {sm : SeatManager} {total i : Nat} (h : i < total)
    {sec : Section} {m : Nat} {s : Seat}
    (hl : alookup (sm.sectionOrder.getD ((sm.nextSectionIdx + i) % total) "") sm.sections
      = some sec) (hv : ¬ sec.vacantSeats ≤ 0)
    (hf : findAvail sec.seats sec.maxSeats sec.firstVacant = some (m, s)) :
    assignLoop sm total i =
      (.ok (sec.name, s.number),
       { sm with
         sections := aupdate (sm.sectionOrder.getD ((sm.nextSectionIdx + i) % total) "")
           (fun _ => sec.assignAt m) sm.sections,
         nextSectionIdx := ((sm.nextSectionIdx + i) % total + 1) % total }) := by
  rw [assignLoop_eq]
  simp only [if_pos h, hl]
  rw [if_neg hv]
  simp only [hf]

/-- Under the structural invariants the loop either skips every remaining
candidate (all of them empty) and fails leaving the state untouched, or
succeeds on the first candidate with a positive vacancy count. -/
theorem assignLoop_WF_spec {sm : SeatManager} (hw : sm.WF)
    {total : Nat} (htot : total = sm.sectionOrder.length) (i : Nat) :
    ((∀ j, i ≤ j → j < total → vacantAt sm ((sm.nextSectionIdx + j) % total) ≤ 0) ∧
      assignLoop sm total i = (.error .noSeats, sm))
    ∨ (∃ j, i ≤ j ∧ j < total ∧
        (∀ j', i ≤ j' → j' < j → vacantAt sm ((sm.nextSectionIdx + j') % total) ≤ 0) ∧
        ∃ sec m s,
          alookup (sm.sectionOrder.getD ((sm.nextSectionIdx + j) % total) "") sm.sections
            = some sec ∧
          0 < sec.vacantSeats ∧
          findAvail sec.seats sec.maxSeats sec.firstVacant = some (m, s) ∧
          assignLoop sm total i =
            (.ok (sec.name, s.number),
             { sm with
               sections := aupdate
                 (sm.sectionOrder.getD ((sm.nextSectionIdx + j) % total) "")
                 (fun _ => sec.assignAt m) sm.sections,
               nextSectionIdx := ((sm.nextSectionIdx + j) % total + 1) % total })) := by
  by_cases h : i < total
  · have hidx : (sm.nextSectionIdx + i) % total < sm.sectionOrder.length := by
      rw [← htot]
      exact Nat.mod_lt _ (by omega)
    rcases sm.lookup_order hw hidx with ⟨sec, hl⟩
    by_cases hv : sec.vacantSeats ≤ 0
    · have hskip := assignLoop_skip h hl hv
      rcases assignLoop_WF_spec hw htot (i + 1) with ⟨hall, heq⟩ | ⟨j, hj1, hj2, hpre, rest⟩
      · left
        refine ⟨?_, hskip ▸ heq⟩
        intro j hij hjt
        rcases Nat.eq_or_lt_of_le hij with rfl | hlt
        · simp only [vacantAt, hl]
          exact hv
        · exact hall j hlt hjt
      · right
        refine ⟨j, by omega, hj2, ?_, ?_⟩
        · intro j' hij' hj'
          rcases Nat.eq_or_lt_of_le hij' with rfl | hlt
          · simp only [vacantAt, hl]
            exact hv
          · exact hpre j' hlt hj'
        · rw [hskip]
          exact rest
    · have hwsec : sec.WF := (SeatManager.WF_lookup hw hl).1
      rcases findAvail_isSome_of_vacant hwsec (by omega) with ⟨m, s, hf⟩
      right
      exact ⟨i, le_refl i, h, fun j' h1 h2 => by omega, sec, m, s, hl, by omega, hf,
        assignLoop_hit h hl hv hf⟩
  · left
    exact ⟨fun j hij hjt => by omega, assignLoop_stop h⟩
termination_by total - i
decreasing_by all_goals omega

/-! ## Construction and preservation of the invariants -/

theorem mkSeats_keys (maxSeats : Nat) :
    (mkSeats maxSeats).map Prod.fst = (List.range maxSeats).map (fun j => j + 1) := by
  rw [mkSeats, List.map_map]
  rfl

theorem mkSeats_mem {maxSeats : Nat} {p : Nat × Seat} (hp : p ∈ mkSeats maxSeats) :
    (p.2).number = p.1 ∧ (p.2).available = true := by
  rcases List.mem_map.mp hp with ⟨j, _, rfl⟩
  exact ⟨rfl, rfl⟩

theorem mkSeats_countAvail (maxSeats : Nat) :
    (mkSeats maxSeats).countP (fun p => (p.2).available) = maxSeats := by
  have hall : ∀ p ∈ mkSeats maxSeats, (fun q : Nat × Seat => (q.2).available) p = true :=
    fun p hp => (mkSeats_mem hp).2
  rw [List.countP_eq_length.mpr hall, mkSeats, List.length_map, List.length_range]

theorem newSection_WF (cfg : SectionConfig) : (newSection cfg).WF := by
  refine ⟨mkSeats_keys cfg.maxSeats, fun p hp => (mkSeats_mem hp).1, ?_, ?_⟩
  · show (cfg.maxSeats : Int) = ((mkSeats cfg.maxSeats).countP (fun p => (p.2).available) : Int)
    rw [mkSeats_countAvail]
  · intro p hp _
    rcases List.mem_map.mp hp with ⟨j, _, rfl⟩
    show 1 ≤ j + 1
    omega

theorem newSeatManager_WF {cfgs : List SectionConfig}
    (hnd : (cfgs.map (fun c => c.name)).Nodup) : (newSeatManager cfgs).WF := by
  refine ⟨?_, ?_, hnd, ?_⟩
  · show (cfgs.map (fun c => (c.name, newSection c))).map Prod.fst = cfgs.map (fun c => c.name)
    rw [List.map_map]
    rfl
  · intro p hp
    rcases List.mem_map.mp hp with ⟨c, _, rfl⟩
    exact ⟨newSection_WF c, rfl⟩
  · intro hne
    show 0 < (cfgs.map (fun c => c.name)).length
    exact List.length_pos.mpr hne

/-- Replacing one stored section with a well-formed section of the same
name (and optionally moving the cursor within bounds) preserves the
manager invariants. -/
theorem SeatManager.WF_update {sm : SeatManager} (hw : sm.WF) {name : String}
    {sec : Section} (hl : alookup name sm.sections = some sec) {sec' : Section}
    (hsec : sec'.WF) (hname : sec'.name = sec.name) {idx' : Nat}
    (hidx : sm.sectionOrder ≠ [] → idx' < sm.sectionOrder.length) :
    SeatManager.WF
      { sm with
        sections := aupdate name (fun _ => sec') sm.sections
        nextSectionIdx := idx' } := by
  refine ⟨?_, ?_, hw.2.2.1, hidx⟩
  · show (aupdate name (fun _ => sec') sm.sections).map Prod.fst = sm.sectionOrder
    rw [aupdate_keys]
    exact hw.1
  · intro p hp
    replace hp : p ∈ aupdate name (fun _ => sec') sm.sections := hp
    rcases mem_aupdate hp with ⟨hmem, _⟩ | ⟨v, hv, rfl⟩
    · exact hw.2.1 p hmem
    · refine ⟨hsec, ?_⟩
      rw [hname]
      exact (SeatManager.WF_lookup hw hl).2

theorem SeatManager.assignSeat_WF {sm : SeatManager} (hw : sm.WF) :
    (sm.assignSeat).2.WF := by
  rw [SeatManager.assignSeat]
  by_cases h0 : sm.sectionOrder.length = 0
  · simp only [h0, if_pos]
    exact hw
  · simp only [if_neg h0]
    rcases assignLoop_WF_spec hw rfl 0 with ⟨_, heq⟩ |
      ⟨j, _, hj2, _, sec, m, s, hl, hv, hf, heq⟩
    · rw [heq]
      exact hw
    · rw [heq]
      have hwsec := (SeatManager.WF_lookup hw hl).1
      have hstep := Section.assignAt_spec hwsec hf
      exact SeatManager.WF_update hw hl hstep.1 rfl
        (fun _ => Nat.mod_lt _ (by omega))

theorem releaseSeat_ok {sm : SeatManager} {sectionName : String} {seatNumber : Nat}
    {sec : Section} {s : Seat}
    (hl : alookup sectionName sm.sections = some sec)
    (hs : alookup seatNumber sec.seats = some s) (hav : s.available = false) :
    sm.releaseSeat sectionName seatNumber =
      (.ok (), { sm with
        sections := aupdate sectionName (fun _ => sec.releaseAt seatNumber) sm.sections }) := by
  rw [SeatManager.releaseSeat]
  simp only [hl, hs, hav]
  rfl

theorem releaseSeat_err_state {sm : SeatManager} {sectionName : String} {seatNumber : Nat}
    {e : SeatErr} (h : (sm.releaseSeat sectionName seatNumber).1 = .error e) :
    (sm.releaseSeat sectionName seatNumber).2 = sm := by
  rw [SeatManager.releaseSeat] at h ⊢
  rcases hl : alookup sectionName sm.sections with _ | sec
  · rfl
  · simp only [hl] at h ⊢
    rcases hs : alookup seatNumber sec.seats with _ | s
    · rfl
    · simp only [hs] at h ⊢
      by_cases hav : s.available = true
      · rw [if_pos hav]
      · rw [if_neg hav] at h
        cases h

theorem SeatManager.releaseSeat_WF {sm : SeatManager} (hw : sm.WF)
    (sectionName : String) (seatNumber : Nat) :
    (sm.releaseSeat sectionName seatNumber).2.WF := by
  rcases hl : alookup sectionName sm.sections with _ | sec
  · rw [SeatManager.releaseSeat]
    simp only [hl]
    exact hw
  · rcases hs : alookup seatNumber sec.seats with _ | s
    · rw [SeatManager.releaseSeat]
      simp only [hl, hs]
      exact hw
    · by_cases hav : s.available = true
      · rw [SeatManager.releaseSeat]
        simp only [hl, hs, hav]
        exact hw
      · have hav' : s.available = false := by
          rcases hb : s.available with _ | _
          · rfl
          · exact absurd hb hav
        rw [releaseSeat_ok hl hs hav']
        have hwsec := (SeatManager.WF_lookup hw hl).1
        have hstep := Section.releaseAt_spec hwsec hs hav'
        exact SeatManager.WF_update hw hl hstep.1 rfl hw.2.2.2

/-! ## UpdateSeat write-phase normal forms -/

theorem val_release (sec : Section) (c : Nat) :
    (if c < ({ sec with
        seats := aupdate c (fun s => { s with available := true }) sec.seats,
        vacantSeats := sec.vacantSeats + 1 } : Section).firstVacant
      then { ({ sec with
        seats := aupdate c (fun s => { s with available := true }) sec.seats,
        vacantSeats := sec.vacantSeats + 1 } : Section) with firstVacant := c }
      else { sec with
        seats := aupdate c (fun s => { s with available := true }) sec.seats,
        vacantSeats := sec.vacantSeats + 1 })
    = sec.releaseAt c := by
  by_cases h : c < sec.firstVacant <;> simp [Section.releaseAt, h]

theorem val_movein (sec : Section) (r : Nat) :
    (if r = ({ sec with
        seats := aupdate r (fun s => { s with available := false }) sec.seats,
        vacantSeats := sec.vacantSeats - 1 } : Section).firstVacant
      then { ({ sec with
        seats := aupdate r (fun s => { s with available := false }) sec.seats,
        vacantSeats := sec.vacantSeats - 1 } : Section) with
          firstVacant := scanVacant
            (aupdate r (fun s => { s with available := false }) sec.seats)
            sec.maxSeats (r + 1) }
      else { sec with
        seats := aupdate r (fun s => { s with available := false }) sec.seats,
        vacantSeats := sec.vacantSeats - 1 })
    = sec.moveInAt r := by
  by_cases h : r = sec.firstVacant <;> simp [Section.moveInAt, h]

/-- The six sequential write-phase map updates of a cross-section move
collapse, entry by entry, to one release on the source section and one
move-in on the destination section. -/
theorem sections_chain_cross {S : List (String × Section)} {c r : String}
    (hnd : (S.map Prod.fst).Nodup) (hne : c ≠ r) {oldSec newSec : Section}
    (hc : alookup c S = some oldSec) (hr : alookup r S = some newSec)
    (currSeat reqSeat : Nat) :
    aupdate r (fun sec => if reqSeat = sec.firstVacant
        then { sec with firstVacant := scanVacant sec.seats sec.maxSeats (reqSeat + 1) }
        else sec)
      (aupdate c (fun sec => if currSeat < sec.firstVacant
          then { sec with firstVacant := currSeat } else sec)
        (aupdate r (fun sec => { sec with vacantSeats := sec.vacantSeats - 1 })
          (aupdate c (fun sec => { sec with vacantSeats := sec.vacantSeats + 1 })
            (aupdate r (fun sec => { sec with
                seats := aupdate reqSeat (fun s => { s with available := false }) sec.seats })
              (aupdate c (fun sec => { sec with
                  seats := aupdate currSeat (fun s => { s with available := true }) sec.seats })
                S)))))
    = aupdate r (fun _ => newSec.moveInAt reqSeat)
        (aupdate c (fun _ => oldSec.releaseAt currSeat) S) := by
  simp only [aupdate, List.map_map]
  apply List.map_congr_left
  intro p hp
  have hlp := alookup_of_mem_nodup hnd hp
  obtain ⟨k, v⟩ := p
  simp only [Function.comp]
  by_cases hkc : k = c
  · subst hkc
    rw [hc] at hlp
    have hv : v = oldSec := (Option.some_inj.mp hlp).symm
    subst hv
    simp only [if_pos rfl, if_neg hne]
    by_cases h : currSeat < v.firstVacant <;> simp [Section.releaseAt, hne, h, aupdate]
  · by_cases hkr : k = r
    · subst hkr
      rw [hr] at hlp
      have hv : v = newSec := (Option.some_inj.mp hlp).symm
      subst hv
      simp only [if_pos rfl, if_neg hkc]
      by_cases h : reqSeat = v.firstVacant <;> simp [Section.moveInAt, hkc, h, aupdate]
    · simp [hkc, hkr]

/-- When source and destination coincide, the six write-phase updates
collapse to one same-section move on that section. -/
theorem sections_chain_same {S : List (String × Section)} {c : String}
    (hnd : (S.map Prod.fst).Nodup) {sec : Section}
    (hc : alookup c S = some sec) (currSeat reqSeat : Nat) :
    aupdate c (fun s0 => if reqSeat = s0.firstVacant
        then { s0 with firstVacant := scanVacant s0.seats s0.maxSeats (reqSeat + 1) }
        else s0)
      (aupdate c (fun s0 => if currSeat < s0.firstVacant
          then { s0 with firstVacant := currSeat } else s0)
        (aupdate c (fun s0 => { s0 with vacantSeats := s0.vacantSeats - 1 })
          (aupdate c (fun s0 => { s0 with vacantSeats := s0.vacantSeats + 1 })
            (aupdate c (fun s0 => { s0 with
                seats := aupdate reqSeat (fun s => { s with available := false }) s0.seats })
              (aupdate c (fun s0 => { s0 with
                  seats := aupdate currSeat (fun s => { s with available := true }) s0.seats })
                S)))))
    = aupdate c (fun _ => sec.moveWithinAt currSeat reqSeat) S := by
  simp only [aupdate, List.map_map]
  apply List.map_congr_left
  intro p hp
  have hlp := alookup_of_mem_nodup hnd hp
  obtain ⟨k, v⟩ := p
  simp only [Function.comp]
  by_cases hkc : k = c
  · subst hkc
    rw [hc] at hlp
    have hv : v = sec := (Option.some_inj.mp hlp).symm
    subst hv
    simp only [if_pos rfl]
    by_cases h1 : currSeat < v.firstVacant
    · by_cases h2 : reqSeat = currSeat <;>
        simp [Section.moveWithinAt, h1, h2, aupdate]
    · by_cases h2 : reqSeat = v.firstVacant <;>
        simp [Section.moveWithinAt, h1, h2, aupdate]
  · simp [hkc]

theorem updateSeat_ok_cross {sm : SeatManager} {currSeat reqSeat : Nat}
    {currSection reqSection : String} {oldSec newSec : Section} {so sn : Seat}
    (hnd : (sm.sections.map Prod.fst).Nodup) (hne : currSection ≠ reqSection)
    (hcs : alookup currSection sm.sections = some oldSec)
    (hrs : alookup reqSection sm.sections = some newSec)
    (hos : alookup currSeat oldSec.seats = some so) (hso : so.available = false)
    (hns : alookup reqSeat newSec.seats = some sn) (hsn : sn.available = true) :
    sm.updateSeat currSeat currSection reqSeat reqSection =
      (.ok (),
       { sm with
         sections := aupdate reqSection (fun _ => newSec.moveInAt reqSeat)
           (aupdate currSection (fun _ => oldSec.releaseAt currSeat) sm.sections) }) := by
  rw [SeatManager.updateSeat]
  simp only [hcs, hrs, hos, hns, hso, hsn, Bool.not_true, Bool.false_eq_true, if_false]
  rw [sections_chain_cross hnd hne hcs hrs currSeat reqSeat]

theorem updateSeat_ok_same {sm : SeatManager} {currSeat reqSeat : Nat}
    {currSection : String} {sec : Section} {so sn : Seat}
    (hnd : (sm.sections.map Prod.fst).Nodup)
    (hcs : alookup currSection sm.sections = some sec)
    (hos : alookup currSeat sec.seats = some so) (hso : so.available = false)
    (hns : alookup reqSeat sec.seats = some sn) (hsn : sn.available = true) :
    sm.updateSeat currSeat currSection reqSeat currSection =
      (.ok (),
       { sm with
         sections := aupdate currSection (fun _ => sec.moveWithinAt currSeat reqSeat)
           sm.sections }) := by
  rw [SeatManager.updateSeat]
  simp only [hcs, hos, hns, hso, hsn, Bool.not_true, Bool.false_eq_true, if_false]
  rw [sections_chain_same hnd hcs currSeat reqSeat]

theorem updateSeat_err_state {sm : SeatManager} {currSeat reqSeat : Nat}
    {currSection reqSection : String} {e : SeatErr}
    (h : (sm.updateSeat currSeat currSection reqSeat reqSection).1 = .error e) :
    (sm.updateSeat currSeat currSection reqSeat reqSection).2 = sm := by
  rw [SeatManager.updateSeat] at h ⊢
  rcases h1 : alookup currSection sm.sections with _ | oldSec
  · simp only [h1]
  simp only [h1] at h ⊢
  rcases h2 : alookup reqSection sm.sections with _ | newSec
  · simp only [h2]
  simp only [h2] at h ⊢
  rcases h3 : alookup currSeat oldSec.seats with _ | so
  · simp only [h3]
  simp only [h3] at h ⊢
  by_cases h4 : so.available = true
  · rw [if_pos h4]
  rw [if_neg h4] at h ⊢
  rcases h5 : alookup reqSeat newSec.seats with _ | sn
  · simp only [h5]
  simp only [h5] at h ⊢
  by_cases h6 : sn.available = true
  · have hbn : ¬ ((!sn.available) = true) := by simp [h6]
    rw [if_neg hbn] at h
    simp at h
  · have h6' : sn.available = false := Bool.not_eq_true sn.available ▸ h6
    have hbn : (!sn.available) = true := by simp [h6']
    rw [if_pos hbn]

theorem SeatManager.updateSeat_WF {sm : SeatManager} (hw : sm.WF)
    (currSeat : Nat) (currSection : String) (reqSeat : Nat) (reqSection : String) :
    (sm.updateSeat currSeat currSection reqSeat reqSection).2.WF := by
  have hnd : (sm.sections.map Prod.fst).Nodup := by
    rw [hw.1]
    exact hw.2.2.1
  rcases h1 : alookup currSection sm.sections with _ | oldSec
  · have heq : sm.updateSeat currSeat currSection reqSeat reqSection
        = (.error (.sectionNotFound currSection), sm) := by
      rw [SeatManager.updateSeat]
      simp only [h1]
    rw [heq]
    exact hw
  rcases h2 : alookup reqSection sm.sections with _ | newSec
  · have heq : sm.updateSeat currSeat currSection reqSeat reqSection
        = (.error (.sectionNotFound reqSection), sm) := by
      rw [SeatManager.updateSeat]
      simp only [h1, h2]
    rw [heq]
    exact hw
  rcases h3 : alookup currSeat oldSec.seats with _ | so
  · have heq : sm.updateSeat currSeat currSection reqSeat reqSection
        = (.error (.seatNotFound currSection currSeat), sm) := by
      rw [SeatManager.updateSeat]
      simp only [h1, h2, h3]
    rw [heq]
    exact hw
  by_cases h4 : so.available = true
  · have heq : sm.updateSeat currSeat currSection reqSeat reqSection
        = (.error (.notOccupied currSection currSeat), sm) := by
      rw [SeatManager.updateSeat]
      simp only [h1, h2, h3]
      rw [if_pos h4]
    rw [heq]
    exact hw
  have h4' : so.available = false := Bool.not_eq_true so.available ▸ h4
  rcases h5 : alookup reqSeat newSec.seats with _ | sn
  · have heq : sm.updateSeat currSeat currSection reqSeat reqSection
        = (.error (.seatNotFound reqSection reqSeat), sm) := by
      rw [SeatManager.updateSeat]
      simp only [h1, h2, h3, h5]
      rw [if_neg h4]
    rw [heq]
    exact hw
  by_cases h6 : sn.available = true
  · by_cases hsecs : currSection = reqSection
    · subst hsecs
      rw [h1] at h2
      obtain rfl : oldSec = newSec := Option.some_inj.mp h2
      rw [updateSeat_ok_same hnd h1 h3 h4' h5 h6]
      have hwsec := (SeatManager.WF_lookup hw h1).1
      have hstep := Section.moveWithinAt_spec hwsec h3 h4' h5 h6
      exact SeatManager.WF_update hw h1 hstep.1 rfl hw.2.2.2
    · rw [updateSeat_ok_cross hnd hsecs h1 h2 h3 h4' h5 h6]
      have hwold := (SeatManager.WF_lookup hw h1).1
      have hwnew := (SeatManager.WF_lookup hw h2).1
      have hrel := Section.releaseAt_spec hwold h3 h4'
      have hmid : SeatManager.WF
          { sm with
            sections := aupdate currSection (fun _ => oldSec.releaseAt currSeat)
              sm.sections } :=
        SeatManager.WF_update hw h1 hrel.1 rfl hw.2.2.2
      have hl2 : alookup reqSection
          (aupdate currSection (fun _ => oldSec.releaseAt currSeat) sm.sections)
          = some newSec := by
        rw [alookup_aupdate_ne (Ne.symm hsecs)]
        exact h2
      have hmov := Section.moveInAt_spec hwnew h5 h6
      exact SeatManager.WF_update hmid hl2 hmov.1 rfl hmid.2.2.2
  · have h6' : sn.available = false := Bool.not_eq_true sn.available ▸ h6
    have heq : sm.updateSeat currSeat currSection reqSeat reqSection
        = (.error (.notAvailable reqSection reqSeat), sm) := by
      rw [SeatManager.updateSeat]
      simp only [h1, h2, h3, h5]
      rw [if_neg h4, if_pos (by simp [h6'] : (!sn.available) = true)]
    rw [heq]
    exact hw

/-! ## Reachability and the invariants -/

theorem SeatManager.Reachable_WF {sm : SeatManager} (h : sm.Reachable) : sm.WF := by
  induction h with
  | init cfgs hnd => exact newSeatManager_WF hnd
  | assign _ ih => exact SeatManager.assignSeat_WF ih
  | release sectionName seatNumber _ ih =>
    exact SeatManager.releaseSeat_WF ih sectionName seatNumber
  | update currSeat currSection reqSeat reqSection _ ih =>
    exact SeatManager.updateSeat_WF ih currSeat currSection reqSeat reqSection

theorem assignLoop_skip_none {sm : SeatManager} {total i : Nat} (h : i < total)
    (hl : alookup (sm.sectionOrder.getD ((sm.nextSectionIdx + i) % total) "") sm.sections
      = none) :
    assignLoop sm total i = assignLoop sm total (i + 1) := by
  rw [assignLoop_eq]
  simp only [if_pos h, hl]

/-- With every stored section empty, the loop never mutates anything and
reports seat exhaustion. -/
theorem assignLoop_all_empty {sm : SeatManager}
    (hall : ∀ p ∈ sm.sections, (p.2).vacantSeats ≤ 0) (total i : Nat) :
    assignLoop sm total i = (.error .noSeats, sm) := by
  by_cases h : i < total
  · rcases hl : alookup (sm.sectionOrder.getD ((sm.nextSectionIdx + i) % total) "")
        sm.sections with _ | sec
    · rw [assignLoop_skip_none h hl]
      exact assignLoop_all_empty hall total (i + 1)
    · have hv : sec.vacantSeats ≤ 0 := hall _ (alookup_mem hl)
      rw [assignLoop_skip h hl hv]
      exact assignLoop_all_empty hall total (i + 1)
  · exact assignLoop_stop h
termination_by total - i
decreasing_by all_goals omega

/-- A successful assignment occupies exactly one more seat; a failed one
occupies none. -/
theorem assignSeat_totalOccupied {sm : SeatManager} (hw : sm.WF) :
    ((∃ v, (sm.assignSeat).1 = .ok v) →
      (sm.assignSeat).2.totalOccupied = sm.totalOccupied + 1)
    ∧ ((∃ e, (sm.assignSeat).1 = .error e) →
      (sm.assignSeat).2.totalOccupied = sm.totalOccupied) := by
  have hnd : (sm.sections.map Prod.fst).Nodup := by
    rw [hw.1]
    exact hw.2.2.1
  rw [SeatManager.assignSeat]
  by_cases h0 : sm.sectionOrder.length = 0
  · simp only [h0, if_pos]
    refine ⟨?_, ?_⟩
    · rintro ⟨v, hv⟩
      cases hv
    · intro _
      trivial
  · simp only [if_neg h0]
    rcases assignLoop_WF_spec hw rfl 0 with ⟨_, heq⟩ |
      ⟨j, _, hj2, _, sec, m, s, hl, hv, hf, heq⟩
    · rw [heq]
      refine ⟨?_, ?_⟩
      · rintro ⟨v, hv⟩
        cases hv
      · intro _
        rfl
    · rw [heq]
      refine ⟨fun _ => ?_, ?_⟩
      · have hwsec := (SeatManager.WF_lookup hw hl).1
        have hstep := Section.assignAt_spec hwsec hf
        have hocc := totalOccupied_aupdate hnd hl (fun _ => sec.assignAt m)
        show ((aupdate _ (fun _ => sec.assignAt m) sm.sections).map
          (fun p => (p.2).countOccupied)).sum = sm.totalOccupied + 1
        rw [SeatManager.totalOccupied]
        omega
      · rintro ⟨e, he⟩
        cases he

/-- Inversion of a successful release: the section and seat exist and the
seat was occupied, and the result is the single-section update. -/
theorem releaseSeat_ok_inversion {sm : SeatManager} {sectionName : String}
    {seatNumber : Nat} (h : (sm.releaseSeat sectionName seatNumber).1 = .ok ()) :
    ∃ sec s, alookup sectionName sm.sections = some sec ∧
      alookup seatNumber sec.seats = some s ∧ s.available = false ∧
      sm.releaseSeat sectionName seatNumber =
        (.ok (), { sm with
          sections := aupdate sectionName (fun _ => sec.releaseAt seatNumber)
            sm.sections }) := by
  rcases h1 : alookup sectionName sm.sections with _ | sec
  · rw [SeatManager.releaseSeat, h1] at h
    cases h
  rcases h2 : alookup seatNumber sec.seats with _ | s
  · rw [SeatManager.releaseSeat] at h
    simp [h1, h2] at h
  rcases h3 : s.available with _ | _
  · exact ⟨sec, s, rfl, h2, h3, releaseSeat_ok h1 h2 h3⟩
  · rw [SeatManager.releaseSeat] at h
    simp [h1, h2, h3] at h

theorem releaseSeat_totalOccupied {sm : SeatManager} (hw : sm.WF)
    {sectionName : String} {seatNumber : Nat}
    (h : (sm.releaseSeat sectionName seatNumber).1 = .ok ()) :
    (sm.releaseSeat sectionName seatNumber).2.totalOccupied + 1 = sm.totalOccupied := by
  have hnd : (sm.sections.map Prod.fst).Nodup := by
    rw [hw.1]
    exact hw.2.2.1
  rcases releaseSeat_ok_inversion h with ⟨sec, s, h1, h2, h3, heq⟩
  rw [heq]
  have hwsec := (SeatManager.WF_lookup hw h1).1
  have hstep := Section.releaseAt_spec hwsec h2 h3
  have hocc := totalOccupied_aupdate hnd h1 (fun _ => sec.releaseAt seatNumber)
  show ((aupdate _ (fun _ => sec.releaseAt seatNumber) sm.sections).map
    (fun p => (p.2).countOccupied)).sum + 1 = sm.totalOccupied
  rw [SeatManager.totalOccupied]
  omega

/-- Inversion of a successful move: all validation facts hold in the
pre-state. -/
theorem updateSeat_ok_inversion {sm : SeatManager} {currSeat reqSeat : Nat}
    {currSection reqSection : String}
    (h : (sm.updateSeat currSeat currSection reqSeat reqSection).1 = .ok ()) :
    ∃ oldSec newSec so sn,
      alookup currSection sm.sections = some oldSec ∧
      alookup reqSection sm.sections = some newSec ∧
      alookup currSeat oldSec.seats = some so ∧ so.available = false ∧
      alookup reqSeat newSec.seats = some sn ∧ sn.available = true := by
  rcases h1 : alookup currSection sm.sections with _ | oldSec
  · rw [SeatManager.updateSeat, h1] at h
    cases h
  rcases h2 : alookup reqSection sm.sections with _ | newSec
  · rw [SeatManager.updateSeat] at h
    simp [h1, h2] at h
  rcases h3 : alookup currSeat oldSec.seats with _ | so
  · rw [SeatManager.updateSeat] at h
    simp [h1, h2, h3] at h
  rcases h4 : so.available with _ | _
  · rcases h5 : alookup reqSeat newSec.seats with _ | sn
    · rw [SeatManager.updateSeat] at h
      simp [h1, h2, h3, h4, h5] at h
    rcases h6 : sn.available with _ | _
    · rw [SeatManager.updateSeat] at h
      simp [h1, h2, h3, h4, h5, h6] at h
    · exact ⟨oldSec, newSec, so, sn, rfl, rfl, h3, h4, h5, h6⟩
  · rw [SeatManager.updateSeat] at h
    simp [h1, h2, h3, h4] at h

theorem updateSeat_totalOccupied {sm : SeatManager} (hw : sm.WF)
    {currSeat reqSeat : Nat} {currSection reqSection : String}
    (h : (sm.updateSeat currSeat currSection reqSeat reqSection).1 = .ok ()) :
    (sm.updateSeat currSeat currSection reqSeat reqSection).2.totalOccupied
      = sm.totalOccupied := by
  have hnd : (sm.sections.map Prod.fst).Nodup := by
    rw [hw.1]
    exact hw.2.2.1
  rcases updateSeat_ok_inversion h with ⟨oldSec, newSec, so, sn, h1, h2, h3, h4, h5, h6⟩
  by_cases hsecs : currSection = reqSection
  · subst hsecs
    rw [h1] at h2
    obtain rfl : oldSec = newSec := Option.some_inj.mp h2
    rw [updateSeat_ok_same hnd h1 h3 h4 h5 h6]
    have hwsec := (SeatManager.WF_lookup hw h1).1
    have hstep := Section.moveWithinAt_spec hwsec h3 h4 h5 h6
    have hocc := totalOccupied_aupdate hnd h1
      (fun _ => oldSec.moveWithinAt currSeat reqSeat)
    show ((aupdate _ (fun _ => oldSec.moveWithinAt currSeat reqSeat) sm.sections).map
      (fun p => (p.2).countOccupied)).sum = sm.totalOccupied
    rw [SeatManager.totalOccupied]
    omega
  · rw [updateSeat_ok_cross hnd hsecs h1 h2 h3 h4 h5 h6]
    have hwold := (SeatManager.WF_lookup hw h1).1
    have hwnew := (SeatManager.WF_lookup hw h2).1
    have hrel := Section.releaseAt_spec hwold h3 h4
    have hmov := Section.moveInAt_spec hwnew h5 h6
    have hocc1 := totalOccupied_aupdate hnd h1 (fun _ => oldSec.releaseAt currSeat)
    have hnd1 : ((aupdate currSection (fun _ => oldSec.releaseAt currSeat)
        sm.sections).map Prod.fst).Nodup := by
      rw [aupdate_keys]
      exact hnd
    have hl2 : alookup reqSection
        (aupdate currSection (fun _ => oldSec.releaseAt currSeat) sm.sections)
        = some newSec := by
      rw [alookup_aupdate_ne (Ne.symm hsecs)]
      exact h2
    have hocc2 := totalOccupied_aupdate hnd1 hl2 (fun _ => newSec.moveInAt reqSeat)
    show ((aupdate _ (fun _ => newSec.moveInAt reqSeat)
      (aupdate _ (fun _ => oldSec.releaseAt currSeat) sm.sections)).map
      (fun p => (p.2).countOccupied)).sum = sm.totalOccupied
    rw [SeatManager.totalOccupied]
    omega

/-! ## Receipt-table lemmas -/

theorem aupdate_length {α β : Type} [DecidableEq α] (k : α) (f : β → β)
    (l : List (α × β)) : (aupdate k f l).length = l.length :=
  List.length_map l _

theorem ainsert_not_mem_length {α β : Type} [DecidableEq α] {k : α} (v : β)
    {l : List (α × β)} (h : alookup k l = none) :
    (ainsert k v l).length = l.length + 1 := by
  rw [ainsert, h]
  simp

theorem ainsert_not_mem_keys {α β : Type} [DecidableEq α] {k : α} (v : β)
    {l : List (α × β)} (h : alookup k l = none) :
    (ainsert k v l).map Prod.fst = l.map Prod.fst ++ [k] := by
  rw [ainsert, h]
  simp

theorem aerase_eq_of_not_mem {α β : Type} [DecidableEq α] {k : α}
    {l : List (α × β)} (h : k ∉ l.map Prod.fst) : aerase k l = l := by
  rw [aerase, List.filter_eq_self]
  intro p hp
  have : ¬ p.1 = k := by
    intro hc
    exact h (hc ▸ List.mem_map_of_mem Prod.fst hp)
  simp [this]

theorem aerase_split {α β : Type} [DecidableEq α] {k : α} {v : β}
    {l : List (α × β)} (hnd : (l.map Prod.fst).Nodup) (h : alookup k l = some v) :
    ∃ l1 l2, l = l1 ++ (k, v) :: l2 ∧ aerase k l = l1 ++ l2 ∧
      k ∉ l1.map Prod.fst ∧ k ∉ l2.map Prod.fst := by
  induction l with
  | nil => cases h
  | cons p ps ih =>
    simp only [List.map_cons, List.nodup_cons] at hnd
    by_cases hp : p.1 = k
    · rw [alookup_cons, if_pos hp] at h
      cases h
      refine ⟨[], ps, ?_, ?_, by simp, hp ▸ hnd.1⟩
      · rw [List.nil_append, ← hp]
      · rw [List.nil_append, aerase, List.filter_cons_of_neg (by simp [hp]),
          ← aerase, aerase_eq_of_not_mem (hp ▸ hnd.1)]
    · rw [alookup_cons, if_neg hp] at h
      rcases ih hnd.2 h with ⟨l1, l2, hl, hu, h1, h2⟩
      refine ⟨p :: l1, l2, by rw [List.cons_append, ← hl], ?_, ?_, h2⟩
      · rw [List.cons_append, aerase, List.filter_cons_of_pos (by simp [hp]), ← aerase, hu]
      · simp only [List.map_cons, List.mem_cons, not_or]
        exact ⟨fun hc => hp hc.symm, h1⟩

theorem aerase_length_of_mem {α β : Type} [DecidableEq α] {k : α} {v : β}
    {l : List (α × β)} (hnd : (l.map Prod.fst).Nodup) (h : alookup k l = some v) :
    (aerase k l).length + 1 = l.length := by
  rcases aerase_split hnd h with ⟨l1, l2, hl, hu, _, _⟩
  rw [hu, hl]
  simp
  omega

theorem aerase_keys_nodup {α β : Type} [DecidableEq α] {k : α}
    {l : List (α × β)} (hnd : (l.map Prod.fst).Nodup) :
    ((aerase k l).map Prod.fst).Nodup := by
  have hsub : ((aerase k l).map Prod.fst).Sublist (l.map Prod.fst) :=
    (List.filter_sublist l).map Prod.fst
  exact hnd.sublist hsub

theorem newSeatManager_totalOccupied (cfgs : List SectionConfig) :
    (newSeatManager cfgs).totalOccupied = 0 := by
  rw [SeatManager.totalOccupied]
  apply List.sum_eq_zero
  intro x hx
  rcases List.mem_map.mp hx with ⟨p, hp, rfl⟩
  rcases List.mem_map.mp hp with ⟨c, _, rfl⟩
  show (mkSeats c.maxSeats).countP (fun q => !(q.2).available) = 0
  rw [List.countP_eq_zero]
  intro q hq
  simp [(mkSeats_mem hq).2]

/-! ## Orchestrator operation shapes -/

theorem getReceipt_state (tm : TicketManager) (req : Option String) :
    (tm.getReceipt req).2 = tm := by
  rcases req with _ | email
  · rfl
  simp only [TicketManager.getReceipt]
  by_cases h : email = ""
  · rw [if_pos h]
  rw [if_neg h]
  rcases hl : alookup email tm.receipts with _ | r <;> simp only [hl]

theorem getUsersBySection_state (tm : TicketManager) (req : Option String) :
    (tm.getUsersBySection req).2 = tm := by
  rcases req with _ | sectionName
  · rfl
  simp only [TicketManager.getUsersBySection]
  by_cases h : sectionName = ""
  · rw [if_pos h]
  rw [if_neg h]
  by_cases h2 : (alookup sectionName tm.seatManager.sections).isSome = true
  · rw [if_pos h2]
  · rw [if_neg h2]

/-- Every run of `PurchaseTicket` either leaves the state untouched, or
fails after the seat assignment attempt, or succeeds and stores one
receipt under the requesting email. -/
theorem purchaseTicket_shape (tm : TicketManager) (req : Option PurchaseTicketRequest) :
    (tm.purchaseTicket req).2 = tm
    ∨ ((tm.purchaseTicket req).1.isOk = false ∧
        (∃ e, (tm.seatManager.assignSeat).1 = .error e) ∧
        (tm.purchaseTicket req).2
          = { tm with seatManager := (tm.seatManager.assignSeat).2 })
    ∨ ((tm.purchaseTicket req).1.isOk = true ∧
        (∃ v, (tm.seatManager.assignSeat).1 = .ok v) ∧
        ∃ rec, (tm.purchaseTicket req).2
          = { tm with seatManager := (tm.seatManager.assignSeat).2,
                      receipts := ainsert (reqEmail req) rec tm.receipts }) := by
  rcases req with _ | r
  · left
    trivial
  simp only [TicketManager.purchaseTicket]
  rcases hu : r.user with _ | u
  · simp only [hu]
    left
    trivial
  simp only [hu]
  by_cases hval : u.email = "" ∨ r.fromStation = "" ∨ r.toStation = ""
  · rw [if_pos hval]
    left
    trivial
  rw [if_neg hval]
  by_cases hst : alookupD (r.fromStation ++ "-" ++ r.toStation) tm.stationConnection 0 = 0
  · rw [if_pos hst]
    left
    trivial
  rw [if_neg hst]
  rcases ha : tm.seatManager.assignSeat with ⟨res, sm2⟩
  rcases res with e | v
  · simp only [ha]
    right
    left
    exact ⟨rfl, ⟨e, rfl⟩, by trivial⟩
  · obtain ⟨secName, seatNum⟩ := v
    simp only [ha]
    right
    right
    refine ⟨rfl, ⟨(secName, seatNum), rfl⟩, ?_⟩
    refine ⟨{ user := u
              fromStation := r.fromStation
              toStation := r.toStation
              pricePaid := alookupD (r.fromStation ++ "-" ++ r.toStation)
                tm.stationConnection 0
              seat := { seatNumber := seatNum, sectionName := secName } }, ?_⟩
    have hre : reqEmail (some r) = u.email := by
      simp [reqEmail, hu]
    rw [hre]

/-- Every run of `UpdateUserSeat` either leaves the state untouched, or
succeeds: the move succeeded on the stored seat and the stored receipt is
rewritten in place. -/
theorem updateUserSeat_shape (tm : TicketManager) (req : Option UpdateUserSeatRequest) :
    (tm.updateUserSeat req).2 = tm
    ∨ ∃ email rec ns, alookup email tm.receipts = some rec ∧
        (tm.seatManager.updateSeat (rec.seat).seatNumber (rec.seat).sectionName
          ns.seatNumber ns.sectionName).1 = .ok () ∧
        (tm.updateUserSeat req).2 = { tm with
          seatManager := (tm.seatManager.updateSeat (rec.seat).seatNumber
            (rec.seat).sectionName ns.seatNumber ns.sectionName).2,
          receipts := aupdate email (fun _ => { rec with seat := ns }) tm.receipts } := by
  rcases req with _ | r
  · left
    trivial
  simp only [TicketManager.updateUserSeat]
  rcases hn : r.newSeat with _ | ns
  · simp only [hn]
    left
    trivial
  simp only [hn]
  by_cases hval : r.email = "" ∨ ns.sectionName = "" ∨ ns.seatNumber = 0
  · rw [if_pos hval]
    left
    trivial
  rw [if_neg hval]
  rcases hl : alookup r.email tm.receipts with _ | rec
  · simp only [hl]
    left
    trivial
  simp only [hl]
  rcases hu2 : tm.seatManager.updateSeat (rec.seat).seatNumber (rec.seat).sectionName
      ns.seatNumber ns.sectionName with ⟨res, sm2⟩
  rcases res with e | uu
  · simp only [hu2]
    left
    trivial
  · obtain ⟨⟩ := uu
    simp only [hu2]
    right
    exact ⟨r.email, rec, ns, hl, by rw [hu2], by rw [hu2] ; try rfl⟩

/-- Every run of `RemoveUser` either leaves the state untouched, or
succeeds: the stored seat was released and the receipt deleted. -/
theorem removeUser_shape (tm : TicketManager) (req : Option String) :
    (tm.removeUser req).2 = tm
    ∨ ∃ email rec, alookup email tm.receipts = some rec ∧
        (tm.seatManager.releaseSeat (rec.seat).sectionName
          (rec.seat).seatNumber).1 = .ok () ∧
        (tm.removeUser req).2 = { tm with
          seatManager := (tm.seatManager.releaseSeat (rec.seat).sectionName
            (rec.seat).seatNumber).2,
          receipts := aerase email tm.receipts } := by
  rcases req with _ | email
  · left
    trivial
  simp only [TicketManager.removeUser]
  by_cases h : email = ""
  · rw [if_pos h]
    left
    trivial
  rw [if_neg h]
  rcases hl : alookup email tm.receipts with _ | rec
  · simp only [hl]
    left
    trivial
  simp only [hl]
  rcases hr : tm.seatManager.releaseSeat (rec.seat).sectionName (rec.seat).seatNumber
    with ⟨res, sm2⟩
  rcases res with e | uu
  · simp only [hr]
    left
    trivial
  · obtain ⟨⟩ := uu
    simp only [hr]
    right
    exact ⟨email, rec, hl, by rw [hr], by rw [hr]⟩

/-- The bookkeeping invariant of the orchestrator along runs that never
overwrite an existing receipt: the seat manager stays well-formed, the
receipt keys stay distinct, and occupied seats match stored receipts. -/
theorem TicketManager.ReachableNoRebuy_inv {tm : TicketManager}
    (h : tm.ReachableNoRebuy) :
    tm.seatManager.WF ∧ (tm.receipts.map Prod.fst).Nodup ∧
      tm.seatManager.totalOccupied = tm.receipts.length := by
  induction h with
  | init cfgs hnd stations =>
    refine ⟨newSeatManager_WF hnd, ?_, ?_⟩
    · show (([] : List (String × Receipt)).map Prod.fst).Nodup
      simp
    · show (newSeatManager cfgs).totalOccupied = ([] : List (String × Receipt)).length
      rw [newSeatManager_totalOccupied]
      rfl
  | @purchase tm req hnew prem ih =>
    obtain ⟨hwf, hndk, hocc⟩ := ih
    rcases purchaseTicket_shape tm req with heq | ⟨hko, ⟨e, he⟩, heq⟩ |
      ⟨hok, ⟨v, hv⟩, rec, heq⟩
    · rw [heq]
      exact ⟨hwf, hndk, hocc⟩
    · rw [heq]
      exact ⟨SeatManager.assignSeat_WF hwf, hndk,
        ((assignSeat_totalOccupied hwf).2 ⟨e, he⟩).trans hocc⟩
    · rw [heq]
      have hnone : alookup (reqEmail req) tm.receipts = none := hnew hok
      refine ⟨SeatManager.assignSeat_WF hwf, ?_, ?_⟩
      · show ((ainsert (reqEmail req) rec tm.receipts).map Prod.fst).Nodup
        rw [ainsert_not_mem_keys rec hnone, List.nodup_append]
        refine ⟨hndk, List.nodup_singleton _, ?_⟩
        have hk : reqEmail req ∉ tm.receipts.map Prod.fst :=
          alookup_eq_none_iff.mp hnone
        intro a ha hb
        rw [List.mem_singleton] at hb
        exact hk (hb ▸ ha)
      · show (tm.seatManager.assignSeat).2.totalOccupied
          = (ainsert (reqEmail req) rec tm.receipts).length
        rw [(assignSeat_totalOccupied hwf).1 ⟨v, hv⟩, ainsert_not_mem_length rec hnone,
          hocc]
  | @get tm req prem ih =>
    rw [getReceipt_state tm req]
    exact ih
  | @bySection tm req prem ih =>
    rw [getUsersBySection_state tm req]
    exact ih
  | @update tm req prem ih =>
    obtain ⟨hwf, hndk, hocc⟩ := ih
    rcases updateUserSeat_shape tm req with heq | ⟨email, rec, ns, hl, hok, heq⟩
    · rw [heq]
      exact ⟨hwf, hndk, hocc⟩
    · rw [heq]
      refine ⟨SeatManager.updateSeat_WF hwf _ _ _ _, ?_, ?_⟩
      · show ((aupdate email (fun _ => { rec with seat := ns }) tm.receipts).map
          Prod.fst).Nodup
        rw [aupdate_keys]
        exact hndk
      · show (tm.seatManager.updateSeat (rec.seat).seatNumber (rec.seat).sectionName
            ns.seatNumber ns.sectionName).2.totalOccupied
          = (aupdate email (fun _ => { rec with seat := ns }) tm.receipts).length
        rw [updateSeat_totalOccupied hwf hok, aupdate_length, hocc]
  | @remove tm req prem ih =>
    obtain ⟨hwf, hndk, hocc⟩ := ih
    rcases removeUser_shape tm req with heq | ⟨email, rec, hl, hok, heq⟩
    · rw [heq]
      exact ⟨hwf, hndk, hocc⟩
    · rw [heq]
      refine ⟨SeatManager.releaseSeat_WF hwf _ _, ?_, ?_⟩
      · show ((aerase email tm.receipts).map Prod.fst).Nodup
        exact aerase_keys_nodup hndk
      · show (tm.seatManager.releaseSeat (rec.seat).sectionName
            (rec.seat).seatNumber).2.totalOccupied = (aerase email tm.receipts).length
        have h1 := releaseSeat_totalOccupied hwf hok
        have h2 := aerase_length_of_mem hndk hl
        omega

/-! ## Claims -/

/-- **C2.** For every section and every state reachable from construction by
`AssignSeat`, `ReleaseSeat` and `UpdateSeat` (MoveSeat) calls — failed calls
included, since every operation also returns the state the manager holds
afterwards — the section's `vacantSeats` counter equals the exact number of
that section's seats whose availability flag is true. -/
theorem C2_vacant_eq_available {sm : SeatManager} (h : sm.Reachable) :
    ∀ name sec, alookup name sm.sections = some sec →
      sec.vacantSeats = (sec.countAvail : Int) := by
  intro name sec hl
  exact ((SeatManager.Reachable_WF h).2.1 (name, sec) (alookup_mem hl)).1.2.2.1

/-- Witness for C2 at a concrete reachable state: one section of two seats
after one assignment. -/
theorem C2_vacant_eq_available_witness :
    alookup "A" (((newSeatManager [⟨"A", 2⟩]).assignSeat).2).sections
      = some ((newSection ⟨"A", 2⟩).assignAt 1)
    ∧ ((newSection ⟨"A", 2⟩).assignAt 1).vacantSeats
      = (((newSection ⟨"A", 2⟩).assignAt 1).countAvail : Int) :=
  ⟨by decide,
   C2_vacant_eq_available
     (SeatManager.Reachable.assign (SeatManager.Reachable.init [⟨"A", 2⟩] (by decide)))
     "A" ((newSection ⟨"A", 2⟩).assignAt 1) (by decide)⟩

/-- **C6.** In every reachable state, each section's first-vacant hint is a
lower bound on every seat number currently marked available — equivalently,
it is at most the lowest available seat number whenever one exists; all
three operations preserve this. -/
theorem C6_hint_lower_bound {sm : SeatManager} (h : sm.Reachable) :
    ∀ name sec, alookup name sm.sections = some sec →
      ∀ p ∈ sec.seats, (p.2).available = true → sec.firstVacant ≤ p.1 := by
  intro name sec hl
  exact ((SeatManager.Reachable_WF h).2.1 (name, sec) (alookup_mem hl)).1.2.2.2

/-- Witness for C6 at a concrete reachable state: after assigning seat 1 of
a two-seat section, the hint bounds the still-available seat 2. -/
theorem C6_hint_lower_bound_witness :
    ((newSection ⟨"A", 2⟩).assignAt 1).firstVacant ≤ 2 :=
  C6_hint_lower_bound
    (SeatManager.Reachable.assign (SeatManager.Reachable.init [⟨"A", 2⟩] (by decide)))
    "A" ((newSection ⟨"A", 2⟩).assignAt 1) (by decide)
    (2, ⟨2, true⟩) (by decide) (by decide)

/-- **C8.** When the manager has sections and every seat in every section is
occupied — vacancy counts all zero and consistent with the seat flags —
`AssignSeat` fails with the "no available seats" error and returns the
state entirely unchanged: every seat flag, vacancy count, first-vacant
hint, and the round-robin cursor are exactly as before. -/
theorem C8_exhaustion {sm : SeatManager} (hne : sm.sectionOrder ≠ [])
    (hocc : ∀ p ∈ sm.sections, (p.2).vacantSeats = 0 ∧ (p.2).countAvail = 0) :
    sm.assignSeat = (.error .noSeats, sm) := by
  rw [SeatManager.assignSeat]
  have h0 : ¬ sm.sectionOrder.length = 0 := by
    intro hc
    exact hne (List.length_eq_zero.mp hc)
  rw [if_neg h0]
  exact assignLoop_all_empty (fun p hp => by rw [(hocc p hp).1]) _ 0

/-- Witness for C8: a one-section, one-seat layout filled to capacity. -/
theorem C8_exhaustion_witness :
    (((newSeatManager [⟨"A", 1⟩]).assignSeat).2).assignSeat
      = (.error .noSeats, ((newSeatManager [⟨"A", 1⟩]).assignSeat).2) :=
  C8_exhaustion (by decide) (by decide)

/-- **C7.** `ReleaseSeat` fails exactly when the section does not exist, the
seat number does not exist within it, or the seat is already available
(double release rejected, not a no-op); every failing call returns the
state unchanged; and on success the seat becomes available, `vacantSeats`
goes up by one, and the hint is lowered to the seat number exactly when
that is smaller than the current hint. -/
theorem C7_release_characterization (sm : SeatManager) (sectionName : String)
    (seatNumber : Nat) :
    ((∃ e, (sm.releaseSeat sectionName seatNumber).1 = .error e) ↔
      (alookup sectionName sm.sections = none
       ∨ (∃ sec, alookup sectionName sm.sections = some sec ∧
           alookup seatNumber sec.seats = none)
       ∨ (∃ sec s, alookup sectionName sm.sections = some sec ∧
           alookup seatNumber sec.seats = some s ∧ s.available = true)))
    ∧ (∀ e, (sm.releaseSeat sectionName seatNumber).1 = .error e →
        (sm.releaseSeat sectionName seatNumber).2 = sm)
    ∧ (∀ sec s, alookup sectionName sm.sections = some sec →
        alookup seatNumber sec.seats = some s → s.available = false →
        ∃ sec', alookup sectionName ((sm.releaseSeat sectionName seatNumber).2).sections
            = some sec'
          ∧ isAvail sec'.seats seatNumber = true
          ∧ sec'.vacantSeats = sec.vacantSeats + 1
          ∧ sec'.firstVacant = (if seatNumber < sec.firstVacant then seatNumber
              else sec.firstVacant)) := by
  refine ⟨⟨?_, ?_⟩, fun e he => releaseSeat_err_state he, ?_⟩
  · rintro ⟨e, he⟩
    rw [SeatManager.releaseSeat] at he
    rcases h1 : alookup sectionName sm.sections with _ | sec
    · exact Or.inl rfl
    rcases h2 : alookup seatNumber sec.seats with _ | s
    · exact Or.inr (Or.inl ⟨sec, rfl, h2⟩)
    rcases h3 : s.available with _ | _
    · simp [h1, h2, h3] at he
    · exact Or.inr (Or.inr ⟨sec, s, rfl, h2, h3⟩)
  · intro hd
    rcases hd with h1 | ⟨sec, h1, h2⟩ | ⟨sec, s, h1, h2, h3⟩
    · exact ⟨.sectionNotFound sectionName,
        by rw [SeatManager.releaseSeat]; simp [h1]⟩
    · exact ⟨.seatNotFound sectionName seatNumber,
        by rw [SeatManager.releaseSeat]; simp [h1, h2]⟩
    · exact ⟨.alreadyAvailable sectionName seatNumber,
        by rw [SeatManager.releaseSeat]; simp [h1, h2, h3]⟩
  · intro sec s h1 h2 h3
    rw [releaseSeat_ok h1 h2 h3]
    refine ⟨sec.releaseAt seatNumber, ?_, ?_, rfl, rfl⟩
    · show alookup sectionName
        (aupdate sectionName (fun _ => sec.releaseAt seatNumber) sm.sections)
        = some (sec.releaseAt seatNumber)
      rw [alookup_aupdate_self, h1]
      rfl
    · show isAvail
        (aupdate seatNumber (fun x => { x with available := true }) sec.seats)
        seatNumber = true
      have hself := alookup_aupdate_self
        (k := seatNumber) (f := fun x => { x with available := true }) (l := sec.seats)
      rw [h2] at hself
      simp [isAvail, hself]

/-- Witness for C7 at a concrete input: releasing the just-assigned seat 1
of a two-seat section succeeds with the stated effects, and the hint drops
back to 1. -/
theorem C7_release_characterization_witness :
    ∃ sec', alookup "A"
        (((((newSeatManager [⟨"A", 2⟩]).assignSeat).2).releaseSeat "A" 1).2).sections
        = some sec'
      ∧ isAvail sec'.seats 1 = true
      ∧ sec'.vacantSeats = ((newSection ⟨"A", 2⟩).assignAt 1).vacantSeats + 1
      ∧ sec'.firstVacant = (if 1 < ((newSection ⟨"A", 2⟩).assignAt 1).firstVacant then 1
          else ((newSection ⟨"A", 2⟩).assignAt 1).firstVacant) :=
  (C7_release_characterization ((newSeatManager [⟨"A", 2⟩]).assignSeat).2 "A" 1).2.2
    ((newSection ⟨"A", 2⟩).assignAt 1) ⟨1, false⟩ (by decide) (by decide) (by decide)

/-- **C9.** `PurchaseTicket` keys the price table by `"Origin-Destination"`;
when that key is absent, or present with price exactly zero, the call fails
with the same `InvalidArgument` "invalid station" error in both cases —
indistinguishable to the caller — assigns no seat and stores no receipt
(the whole orchestrator state is returned unchanged). -/
theorem C9_zero_price_indistinguishable (tm : TicketManager)
    (r : PurchaseTicketRequest) (u : User) (hu : r.user = some u)
    (he : ¬ u.email = "") (hf : ¬ r.fromStation = "") (ht : ¬ r.toStation = "")
    (hprice : alookup (r.fromStation ++ "-" ++ r.toStation) tm.stationConnection = none
      ∨ alookup (r.fromStation ++ "-" ++ r.toStation) tm.stationConnection = some 0) :
    tm.purchaseTicket (some r)
      = (.error ⟨.invalidArgument, "invalid station"⟩, tm) := by
  have hst : alookupD (r.fromStation ++ "-" ++ r.toStation) tm.stationConnection 0 = 0 := by
    rw [alookupD]
    rcases hprice with h | h <;> rw [h] <;> rfl
  simp only [TicketManager.purchaseTicket, hu]
  rw [if_neg (by push_neg; exact ⟨he, hf, ht⟩), if_pos hst]

/-- Witness for C9 at a concrete input: a configured zero-price route is
rejected exactly like an absent one. -/
theorem C9_zero_price_indistinguishable_witness :
    (newTicketManager (newSeatManager [⟨"A", 1⟩]) [("X-Y", 0)]).purchaseTicket
        (some ⟨some ⟨"u@e", "", ""⟩, "X", "Y"⟩)
      = (.error ⟨.invalidArgument, "invalid station"⟩,
         newTicketManager (newSeatManager [⟨"A", 1⟩]) [("X-Y", 0)]) :=
  C9_zero_price_indistinguishable _ _ ⟨"u@e", "", ""⟩ rfl (by decide) (by decide)
    (by decide) (Or.inr (by decide))

/-- Inversion of a successful assignment under the invariants: the returned
name is a stored section and the returned number came from the seat scan. -/
theorem assignSeat_ok_shape {sm : SeatManager} (hw : sm.WF) {name : String} {num : Nat}
    (h : (sm.assignSeat).1 = .ok (name, num)) :
    ∃ sec m s, alookup name sm.sections = some sec ∧
      findAvail sec.seats sec.maxSeats sec.firstVacant = some (m, s) ∧
      num = s.number := by
  rw [SeatManager.assignSeat] at h
  by_cases h0 : sm.sectionOrder.length = 0
  · rw [if_pos h0] at h
    cases h
  · rw [if_neg h0] at h
    rcases assignLoop_WF_spec hw rfl 0 with ⟨_, heq⟩ |
      ⟨j, _, hj2, _, sec, m, s, hl, hv, hf, heq⟩
    · rw [heq] at h
      cases h
    · rw [heq] at h
      have h' : Except.ok ((sec.name, s.number) : String × Nat) = .ok (name, num) := h
      simp only [Except.ok.injEq, Prod.mk.injEq] at h'
      obtain ⟨hname, hnum⟩ := h'
      refine ⟨sec, m, s, ?_, hf, hnum.symm⟩
      rw [← hname, (SeatManager.WF_lookup hw hl).2]
      exact hl

/-- **C5.** In every state reachable from construction by the three
allocator operations, when `AssignSeat` succeeds and returns a section and
seat number, that number is the lowest seat number in the returned section
whose availability flag is true at the moment of the call. -/
theorem C5_assign_lowest_available {sm : SeatManager} (h : sm.Reachable)
    (name : String) (num : Nat) (hok : (sm.assignSeat).1 = .ok (name, num)) :
    ∃ sec, alookup name sm.sections = some sec ∧ isAvail sec.seats num = true ∧
      ∀ j, isAvail sec.seats j = true → num ≤ j := by
  have hw := SeatManager.Reachable_WF h
  rcases assignSeat_ok_shape hw hok with ⟨sec, m, s, hl, hf, hnum⟩
  have hwsec := (SeatManager.WF_lookup hw hl).1
  have hL := findAvail_least hwsec hf
  have hm : num = m := by rw [hnum, hL.2.2.1]
  subst hm
  refine ⟨sec, hl, ?_, ?_⟩
  · simp [isAvail, hL.1, hL.2.1]
  · intro j hj
    rcases hlj : alookup j sec.seats with _ | s'
    · simp [isAvail, hlj] at hj
    · have hmem : (j, s') ∈ sec.seats := alookup_mem hlj
      apply hL.2.2.2.2.2 (j, s') hmem
      simp [isAvail, hlj] at hj
      exact hj

/-- Witness for C5 at a concrete input: a fresh two-seat section assigns
seat 1, the lowest available. -/
theorem C5_assign_lowest_available_witness :
    ∃ sec, alookup "A" (newSeatManager [⟨"A", 2⟩]).sections = some sec ∧
      isAvail sec.seats 1 = true ∧ ∀ j, isAvail sec.seats j = true → 1 ≤ j :=
  C5_assign_lowest_available (SeatManager.Reachable.init [⟨"A", 2⟩] (by decide))
    "A" 1 (by decide)

theorem alookup_append {α β : Type} [DecidableEq α] (k : α) (l1 l2 : List (α × β)) :
    alookup k (l1 ++ l2) = match alookup k l1 with
      | some v => some v
      | none => alookup k l2 := by
  induction l1 with
  | nil => rfl
  | cons p ps ih =>
    by_cases hp : p.1 = k <;> simp [alookup_cons, hp, ih]

theorem alookup_ainsert_self {α β : Type} [DecidableEq α] (k : α) (v : β)
    (l : List (α × β)) : alookup k (ainsert k v l) = some v := by
  rw [ainsert]
  by_cases h : (alookup k l).isSome = true
  · rw [if_pos h, alookup_aupdate_self]
    rcases Option.isSome_iff_exists.mp h with ⟨w, hw⟩
    rw [hw]
    rfl
  · rw [if_neg h, alookup_append]
    have hnone : alookup k l = none := by
      rcases hh : alookup k l with _ | w
      · rfl
      · rw [hh] at h
        simp at h
    rw [hnone]
    simp [alookup_cons]

/-- Under the invariants, an available seat in some listed section
guarantees the round-robin assignment succeeds. -/
theorem assignSeat_isOk_of_avail {sm : SeatManager} (hw : sm.WF)
    (h : ∃ name sec, name ∈ sm.sectionOrder ∧ alookup name sm.sections = some sec ∧
      ∃ p ∈ sec.seats, (p.2).available = true) :
    ∃ v, (sm.assignSeat).1 = .ok v := by
  rcases h with ⟨name, sec, hmem, hl, p, hp, hpa⟩
  have hne : sm.sectionOrder ≠ [] := by
    intro hc
    rw [hc] at hmem
    cases hmem
  have hN : ¬ sm.sectionOrder.length = 0 := by
    intro hc
    exact hne (List.length_eq_zero.mp hc)
  rw [SeatManager.assignSeat, if_neg hN]
  rcases assignLoop_WF_spec hw rfl 0 with ⟨hall, heq⟩ |
    ⟨j, _, hj2, _, sec', m, s, _, _, _, heq⟩
  · exfalso
    rcases List.mem_iff_getElem.mp hmem with ⟨j0, hj0, hget⟩
    have hcN : sm.nextSectionIdx < sm.sectionOrder.length := hw.2.2.2 hne
    have hpos : 0 < sec.vacantSeats := by
      have hwsec := (SeatManager.WF_lookup hw hl).1
      have hca : 0 < sec.countAvail := by
        rw [Section.countAvail, List.countP_pos_iff]
        exact ⟨p, hp, by simpa using hpa⟩
      have := hwsec.2.2.1
      omega
    have hvat : vacantAt sm j0 = sec.vacantSeats := by
      simp only [vacantAt]
      rw [List.getD_eq_getElem sm.sectionOrder "" hj0, hget, hl]
    by_cases hcj : sm.nextSectionIdx ≤ j0
    · have hj : (sm.nextSectionIdx + (j0 - sm.nextSectionIdx))
          % sm.sectionOrder.length = j0 := by
        have hx : sm.nextSectionIdx + (j0 - sm.nextSectionIdx) = j0 := by omega
        rw [hx, Nat.mod_eq_of_lt hj0]
      have hva := hall (j0 - sm.nextSectionIdx) (by omega) (by omega)
      rw [hj, hvat] at hva
      omega
    · have hj : (sm.nextSectionIdx +
          (j0 + sm.sectionOrder.length - sm.nextSectionIdx))
          % sm.sectionOrder.length = j0 := by
        have hx : sm.nextSectionIdx +
            (j0 + sm.sectionOrder.length - sm.nextSectionIdx)
            = j0 + sm.sectionOrder.length := by omega
        rw [hx, Nat.add_mod_right, Nat.mod_eq_of_lt hj0]
      have hva := hall (j0 + sm.sectionOrder.length - sm.nextSectionIdx)
        (by omega) (by omega)
      rw [hj, hvat] at hva
      omega
  · exact ⟨(sec'.name, s.number), by rw [heq]⟩

/-- **C10.** `PurchaseTicket` validates only the email of the requester
identity: any request with a present user, non-empty email, origin and
destination, a route whose configured price is nonzero, and an available
seat in some section succeeds and stores a receipt for that email — the
first and last name are never inspected, so they may both be empty. -/
theorem C10_purchase_ignores_names (tm : TicketManager) (r : PurchaseTicketRequest)
    (u : User) (hwf : tm.seatManager.WF) (hu : r.user = some u)
    (he : ¬ u.email = "") (hf : ¬ r.fromStation = "") (ht : ¬ r.toStation = "")
    (hprice : ¬ alookupD (r.fromStation ++ "-" ++ r.toStation) tm.stationConnection 0 = 0)
    (havail : ∃ name sec, name ∈ tm.seatManager.sectionOrder ∧
      alookup name tm.seatManager.sections = some sec ∧
      ∃ p ∈ sec.seats, (p.2).available = true) :
    ∃ rec, (tm.purchaseTicket (some r)).1 = .ok ("Ticket booked successfully", rec) ∧
      alookup u.email ((tm.purchaseTicket (some r)).2).receipts = some rec ∧
      rec.user = u := by
  rcases assignSeat_isOk_of_avail hwf havail with ⟨v, hok⟩
  simp only [TicketManager.purchaseTicket, hu]
  rw [if_neg (by push_neg; exact ⟨he, hf, ht⟩), if_neg hprice]
  rcases ha : tm.seatManager.assignSeat with ⟨res, sm2⟩
  rcases res with e | v'
  · simp [ha] at hok
  · obtain ⟨secName, seatNum⟩ := v'
    refine ⟨_, rfl, ?_, rfl⟩
    show alookup u.email (ainsert u.email _ tm.receipts) = some _
    rw [alookup_ainsert_self]

/-- Witness for C10 at a concrete input with empty first and last name. -/
theorem C10_purchase_ignores_names_witness :
    ∃ rec, ((newTicketManager (newSeatManager [⟨"A", 1⟩]) [("X-Y", 5)]).purchaseTicket
        (some ⟨some ⟨"u@e", "", ""⟩, "X", "Y"⟩)).1
        = .ok ("Ticket booked successfully", rec) ∧
      alookup "u@e" (((newTicketManager (newSeatManager [⟨"A", 1⟩])
        [("X-Y", 5)]).purchaseTicket
          (some ⟨some ⟨"u@e", "", ""⟩, "X", "Y"⟩)).2).receipts = some rec ∧
      rec.user = ⟨"u@e", "", ""⟩ :=
  C10_purchase_ignores_names _ _ ⟨"u@e", "", ""⟩ (by decide) rfl (by decide)
    (by decide) (by decide) (by decide)
    ⟨"A", newSection ⟨"A", 1⟩, by decide, by decide, (1, ⟨1, true⟩), by decide, rfl⟩

/-- **C4, counterexample.** A same-section move succeeds, yet the (single)
section's vacancy count neither increases nor decreases by one: after
assigning seat 1 of a two-seat section and moving that occupant from seat 1
to seat 2 within the same section, the vacancy count is still 1, refuting
the claim that every successful move raises the source section's count by
exactly one and lowers the destination section's by exactly one. -/
theorem C4_move_atomicity_counterexample :
    ((((newSeatManager [⟨"A", 2⟩]).assignSeat).2).updateSeat 1 "A" 2 "A").1 = .ok ()
    ∧ (alookup "A" (((newSeatManager [⟨"A", 2⟩]).assignSeat).2).sections).map
        Section.vacantSeats = some 1
    ∧ (alookup "A" ((((newSeatManager [⟨"A", 2⟩]).assignSeat).2).updateSeat
        1 "A" 2 "A").2.sections).map Section.vacantSeats = some 1 := by
  decide

/-- **C4 (amended).** `UpdateSeat` either fails with no mutation at all, or
fully succeeds, leaving the section order, cursor, and all other sections
untouched; a cross-section success frees the current seat, occupies the
requested one, and moves the vacancy counts by exactly one in opposite
directions, while a same-section success flips both seat flags but leaves
the section's vacancy count unchanged (the net effect is zero). -/
theorem C4_move_atomicity_amended (sm : SeatManager) (hw : sm.WF)
    (currSeat : Nat) (currSection : String) (reqSeat : Nat) (reqSection : String) :
    (∀ e, (sm.updateSeat currSeat currSection reqSeat reqSection).1 = .error e →
      (sm.updateSeat currSeat currSection reqSeat reqSection).2 = sm)
    ∧ ((sm.updateSeat currSeat currSection reqSeat reqSection).1 = .ok () →
        (sm.updateSeat currSeat currSection reqSeat reqSection).2.sectionOrder
          = sm.sectionOrder
        ∧ (sm.updateSeat currSeat currSection reqSeat reqSection).2.nextSectionIdx
          = sm.nextSectionIdx
        ∧ (∀ name, name ≠ currSection → name ≠ reqSection →
            alookup name (sm.updateSeat currSeat currSection reqSeat reqSection).2.sections
              = alookup name sm.sections)
        ∧ (currSection ≠ reqSection →
            ∃ oldSec newSec oldSec' newSec',
              alookup currSection sm.sections = some oldSec ∧
              alookup reqSection sm.sections = some newSec ∧
              alookup currSection
                (sm.updateSeat currSeat currSection reqSeat reqSection).2.sections
                = some oldSec' ∧
              alookup reqSection
                (sm.updateSeat currSeat currSection reqSeat reqSection).2.sections
                = some newSec' ∧
              isAvail oldSec'.seats currSeat = true ∧
              isAvail newSec'.seats reqSeat = false ∧
              oldSec'.vacantSeats = oldSec.vacantSeats + 1 ∧
              newSec'.vacantSeats = newSec.vacantSeats - 1)
        ∧ (currSection = reqSection →
            ∃ sec sec',
              alookup currSection sm.sections = some sec ∧
              alookup currSection
                (sm.updateSeat currSeat currSection reqSeat reqSection).2.sections
                = some sec' ∧
              isAvail sec'.seats currSeat = true ∧
              isAvail sec'.seats reqSeat = false ∧
              sec'.vacantSeats = sec.vacantSeats)) := by
  refine ⟨fun e he => updateSeat_err_state he, fun hok => ?_⟩
  have hnd : (sm.sections.map Prod.fst).Nodup := by
    rw [hw.1]
    exact hw.2.2.1
  rcases updateSeat_ok_inversion hok with ⟨oldSec, newSec, so, sn, h1, h2, h3, h4, h5, h6⟩
  by_cases hsecs : currSection = reqSection
  · subst hsecs
    rw [h1] at h2
    obtain rfl : oldSec = newSec := Option.some_inj.mp h2
    have hcr : currSeat ≠ reqSeat := by
      intro hc
      rw [hc, h5] at h3
      rw [Option.some_inj.mp h3, h4] at h6
      cases h6
    rw [updateSeat_ok_same hnd h1 h3 h4 h5 h6]
    refine ⟨rfl, rfl, ?_, fun hne => absurd rfl hne, fun _ => ?_⟩
    · intro name hn1 _
      show alookup name (aupdate currSection
          (fun _ => oldSec.moveWithinAt currSeat reqSeat) sm.sections)
        = alookup name sm.sections
      exact alookup_aupdate_ne hn1
    refine ⟨oldSec, oldSec.moveWithinAt currSeat reqSeat, h1, ?_, ?_, ?_, ?_⟩
    · show alookup currSection (aupdate currSection
          (fun _ => oldSec.moveWithinAt currSeat reqSeat) sm.sections)
        = some (oldSec.moveWithinAt currSeat reqSeat)
      rw [alookup_aupdate_self, h1]
      rfl
    · have hlc : alookup currSeat (aupdate reqSeat (fun s => { s with available := false })
          (aupdate currSeat (fun s => { s with available := true }) oldSec.seats))
          = some { so with available := true } := by
        rw [alookup_aupdate_ne hcr, alookup_aupdate_self, h3]
        rfl
      simp [isAvail, Section.moveWithinAt, hlc]
    · have hlr : alookup reqSeat (aupdate reqSeat (fun s => { s with available := false })
          (aupdate currSeat (fun s => { s with available := true }) oldSec.seats))
          = some { sn with available := false } := by
        rw [alookup_aupdate_self, alookup_aupdate_ne (Ne.symm hcr), h5]
        rfl
      simp [isAvail, Section.moveWithinAt, hlr]
    · show oldSec.vacantSeats + 1 - 1 = oldSec.vacantSeats
      omega
  · rw [updateSeat_ok_cross hnd hsecs h1 h2 h3 h4 h5 h6]
    refine ⟨rfl, rfl, ?_, fun _ => ?_, fun h => absurd h hsecs⟩
    · intro name hn1 hn2
      show alookup name (aupdate reqSection (fun _ => newSec.moveInAt reqSeat)
          (aupdate currSection (fun _ => oldSec.releaseAt currSeat) sm.sections))
        = alookup name sm.sections
      rw [alookup_aupdate_ne hn2, alookup_aupdate_ne hn1]
    · refine ⟨oldSec, newSec, oldSec.releaseAt currSeat, newSec.moveInAt reqSeat,
        h1, h2, ?_, ?_, ?_, ?_, rfl, rfl⟩
      · show alookup currSection (aupdate reqSection (fun _ => newSec.moveInAt reqSeat)
            (aupdate currSection (fun _ => oldSec.releaseAt currSeat) sm.sections))
          = some (oldSec.releaseAt currSeat)
        rw [alookup_aupdate_ne hsecs, alookup_aupdate_self, h1]
        rfl
      · show alookup reqSection (aupdate reqSection (fun _ => newSec.moveInAt reqSeat)
            (aupdate currSection (fun _ => oldSec.releaseAt currSeat) sm.sections))
          = some (newSec.moveInAt reqSeat)
        rw [alookup_aupdate_self, alookup_aupdate_ne (Ne.symm hsecs), h2]
        rfl
      · have hlc : alookup currSeat (aupdate currSeat
            (fun s => { s with available := true }) oldSec.seats)
            = some { so with available := true } := by
          rw [alookup_aupdate_self, h3]
          rfl
        simp [isAvail, Section.releaseAt, hlc]
      · have hlr : alookup reqSeat (aupdate reqSeat
            (fun s => { s with available := false }) newSec.seats)
            = some { sn with available := false } := by
          rw [alookup_aupdate_self, h5]
          rfl
        simp [isAvail, Section.moveInAt, hlr]

/-- Witness for the amended C4: moving the one occupant of a two-section
layout from seat 1 of section A to seat 1 of section B exhibits exactly the
cross-section effects. -/
theorem C4_move_atomicity_amended_witness :
    ∃ oldSec newSec oldSec' newSec',
      alookup "A" (((newSeatManager [⟨"A", 1⟩, ⟨"B", 1⟩]).assignSeat).2).sections
        = some oldSec ∧
      alookup "B" (((newSeatManager [⟨"A", 1⟩, ⟨"B", 1⟩]).assignSeat).2).sections
        = some newSec ∧
      alookup "A" ((((newSeatManager [⟨"A", 1⟩, ⟨"B", 1⟩]).assignSeat).2).updateSeat
        1 "A" 1 "B").2.sections = some oldSec' ∧
      alookup "B" ((((newSeatManager [⟨"A", 1⟩, ⟨"B", 1⟩]).assignSeat).2).updateSeat
        1 "A" 1 "B").2.sections = some newSec' ∧
      isAvail oldSec'.seats 1 = true ∧
      isAvail newSec'.seats 1 = false ∧
      oldSec'.vacantSeats = oldSec.vacantSeats + 1 ∧
      newSec'.vacantSeats = newSec.vacantSeats - 1 :=
  ((C4_move_atomicity_amended ((newSeatManager [⟨"A", 1⟩, ⟨"B", 1⟩]).assignSeat).2
      (by decide) 1 "A" 1 "B").2 (by decide)).2.2.2.1 (by decide)

/-- **C1, counterexample.** Two purchases with the same email are a
reachable run after which two seats are occupied but only one receipt is
stored: the duplicate purchase overwrites the prior receipt without
releasing its seat, so occupied seats and stored receipts come apart. -/
theorem C1_occupancy_matches_receipts_counterexample :
    ∃ tm : TicketManager, TicketManager.Reachable tm ∧
      tm.seatManager.totalOccupied = 2 ∧ tm.receipts.length = 1 := by
  refine ⟨((((newTicketManager (newSeatManager [⟨"A", 2⟩]) [("X-Y", 5)]).purchaseTicket
      (some ⟨some ⟨"u@e", "", ""⟩, "X", "Y"⟩)).2).purchaseTicket
      (some ⟨some ⟨"u@e", "", ""⟩, "X", "Y"⟩)).2, ?_, ?_, ?_⟩
  · exact TicketManager.Reachable.purchase (some ⟨some ⟨"u@e", "", ""⟩, "X", "Y"⟩)
      (TicketManager.Reachable.purchase (some ⟨some ⟨"u@e", "", ""⟩, "X", "Y"⟩)
        (TicketManager.Reachable.init [⟨"A", 2⟩] (by decide) [("X-Y", 5)]))
  · decide
  · decide

/-- **C1 (amended).** Along every run of the five public operations in
which no successful purchase reuses an email that already holds a stored
receipt, the total number of seats marked unavailable across all sections
equals the number of stored receipts; the unrestricted claim fails because
a duplicate purchase overwrites the prior receipt without releasing its
seat. -/
theorem C1_occupancy_matches_receipts_amended {tm : TicketManager}
    (h : tm.ReachableNoRebuy) :
    tm.seatManager.totalOccupied = tm.receipts.length :=
  (TicketManager.ReachableNoRebuy_inv h).2.2

/-- Witness for the amended C1 after one fresh purchase. -/
theorem C1_occupancy_matches_receipts_amended_witness :
    ((newTicketManager (newSeatManager [⟨"A", 2⟩]) [("X-Y", 5)]).purchaseTicket
        (some ⟨some ⟨"u@e", "", ""⟩, "X", "Y"⟩)).2.seatManager.totalOccupied
      = ((newTicketManager (newSeatManager [⟨"A", 2⟩]) [("X-Y", 5)]).purchaseTicket
        (some ⟨some ⟨"u@e", "", ""⟩, "X", "Y"⟩)).2.receipts.length :=
  C1_occupancy_matches_receipts_amended
    (TicketManager.ReachableNoRebuy.purchase (some ⟨some ⟨"u@e", "", ""⟩, "X", "Y"⟩)
      (fun _ => rfl)
      (TicketManager.ReachableNoRebuy.init [⟨"A", 2⟩] (by decide) [("X-Y", 5)]))

/-- Under the invariants, when the cursor section itself has positive
vacancy the round-robin takes it: the call succeeds on that section and
advances the cursor by exactly one position. -/
theorem assignSeat_step {sm : SeatManager} (hw : sm.WF) (hne : sm.sectionOrder ≠ [])
    (hvc : 0 < vacantAt sm sm.nextSectionIdx) :
    ∃ sec m s,
      alookup (sm.sectionOrder.getD sm.nextSectionIdx "") sm.sections = some sec ∧
      findAvail sec.seats sec.maxSeats sec.firstVacant = some (m, s) ∧
      sm.assignSeat =
        (.ok (sec.name, s.number),
         { sm with
           sections := aupdate (sm.sectionOrder.getD sm.nextSectionIdx "")
             (fun _ => sec.assignAt m) sm.sections,
           nextSectionIdx := (sm.nextSectionIdx + 1) % sm.sectionOrder.length }) := by
  have hN0 : ¬ sm.sectionOrder.length = 0 := fun hc => hne (List.length_eq_zero.mp hc)
  have hcN : sm.nextSectionIdx < sm.sectionOrder.length := hw.2.2.2 hne
  have hc0 : (sm.nextSectionIdx + 0) % sm.sectionOrder.length = sm.nextSectionIdx := by
    rw [Nat.add_zero, Nat.mod_eq_of_lt hcN]
  rcases assignLoop_WF_spec hw rfl 0 with ⟨hall, _⟩ |
    ⟨j, _, hj2, hpre, sec, m, s, hl, _, hf, heq⟩
  · exfalso
    have hz := hall 0 (Nat.zero_le 0) (by omega)
    rw [hc0] at hz
    omega
  · have hj0 : j = 0 := by
      by_contra hj
      have hz := hpre 0 (Nat.zero_le 0) (by omega)
      rw [hc0] at hz
      omega
    subst hj0
    rw [hc0] at hl heq
    exact ⟨sec, m, s, hl, hf, by rw [SeatManager.assignSeat, if_neg hN0]; exact heq⟩

/-- With positive vacancy at each of the next `n` cursor positions, `n`
consecutive assignments succeed and take the sections in round-robin order
starting at the cursor, which ends `n` positions further along. -/
theorem assignSeats_rotation (n : Nat) :
    ∀ (sm : SeatManager), sm.WF → n ≤ sm.sectionOrder.length →
    (∀ i, i < n →
      0 < vacantAt sm ((sm.nextSectionIdx + i) % sm.sectionOrder.length)) →
    (∀ i, i < n → ∃ num,
      (sm.assignSeats n).1.getD i (.error .noSections)
        = .ok (sm.sectionOrder.getD
            ((sm.nextSectionIdx + i) % sm.sectionOrder.length) "", num))
    ∧ (sm.assignSeats n).2.sectionOrder = sm.sectionOrder
    ∧ (sm.assignSeats n).2.nextSectionIdx
        = (sm.nextSectionIdx + n) % sm.sectionOrder.length := by
  induction n with
  | zero =>
    intro sm hw _ _
    refine ⟨fun i hi => absurd hi (Nat.not_lt_zero i), rfl, ?_⟩
    show sm.nextSectionIdx = (sm.nextSectionIdx + 0) % sm.sectionOrder.length
    rcases Nat.eq_zero_or_pos sm.sectionOrder.length with hN | hN
    · rw [hN]
      omega
    · have hne : sm.sectionOrder ≠ [] := by
        intro hc
        rw [hc] at hN
        simp at hN
      rw [Nat.add_zero, Nat.mod_eq_of_lt (hw.2.2.2 hne)]
  | succ n ih =>
    intro sm hw hn hvac
    have hne : sm.sectionOrder ≠ [] := by
      intro hc
      rw [hc] at hn
      simp at hn
    have hcN : sm.nextSectionIdx < sm.sectionOrder.length := hw.2.2.2 hne
    have hvc : 0 < vacantAt sm sm.nextSectionIdx := by
      have hz := hvac 0 (Nat.succ_pos n)
      rw [Nat.add_zero, Nat.mod_eq_of_lt hcN] at hz
      exact hz
    rcases assignSeat_step hw hne hvc with ⟨sec, m, s, hl, hf, heq⟩
    have hname : sec.name = sm.sectionOrder.getD sm.nextSectionIdx "" :=
      (SeatManager.WF_lookup hw hl).2
    have h2 : (sm.assignSeat).2 = { sm with
        sections := aupdate (sm.sectionOrder.getD sm.nextSectionIdx "")
          (fun _ => sec.assignAt m) sm.sections,
        nextSectionIdx := (sm.nextSectionIdx + 1) % sm.sectionOrder.length } := by
      rw [heq]
    have hw2 : (sm.assignSeat).2.WF := SeatManager.assignSeat_WF hw
    have hkey : ∀ k, 0 < k → k < sm.sectionOrder.length →
        sm.sectionOrder.getD ((sm.nextSectionIdx + k) % sm.sectionOrder.length) ""
          ≠ sm.sectionOrder.getD sm.nextSectionIdx "" := by
      intro k hk0 hkN hcon
      have hkidx : (sm.nextSectionIdx + k) % sm.sectionOrder.length
          < sm.sectionOrder.length := Nat.mod_lt _ (by omega)
      rw [List.getD_eq_getElem sm.sectionOrder "" hkidx,
        List.getD_eq_getElem sm.sectionOrder "" hcN] at hcon
      have hik := (List.Nodup.getElem_inj_iff hw.2.2.1).mp hcon
      by_cases hlt : sm.nextSectionIdx + k < sm.sectionOrder.length
      · rw [Nat.mod_eq_of_lt hlt] at hik
        omega
      · have hsub : sm.nextSectionIdx + k - sm.sectionOrder.length
            < sm.sectionOrder.length := by omega
        rw [Nat.mod_eq_sub_mod (by omega), Nat.mod_eq_of_lt hsub] at hik
        omega
    have hordP : (sm.assignSeat).2.sectionOrder = sm.sectionOrder := by
      rw [h2]
    have hcurP : (sm.assignSeat).2.nextSectionIdx
        = (sm.nextSectionIdx + 1) % sm.sectionOrder.length := by
      rw [h2]
    have hvvA : ∀ idx, sm.sectionOrder.getD idx ""
        ≠ sm.sectionOrder.getD sm.nextSectionIdx "" →
        vacantAt (sm.assignSeat).2 idx = vacantAt sm idx := by
      intro idx hni
      have hlkA : alookup (sm.sectionOrder.getD idx "") (sm.assignSeat).2.sections
          = alookup (sm.sectionOrder.getD idx "") sm.sections := by
        rw [h2]
        show alookup (sm.sectionOrder.getD idx "")
            (aupdate (sm.sectionOrder.getD sm.nextSectionIdx "")
              (fun _ => sec.assignAt m) sm.sections)
          = alookup (sm.sectionOrder.getD idx "") sm.sections
        exact alookup_aupdate_ne hni
      simp only [vacantAt, hordP, hlkA]
    have hnP : n ≤ (sm.assignSeat).2.sectionOrder.length := by
      rw [hordP]
      omega
    have hvacP : ∀ i, i < n →
        0 < vacantAt (sm.assignSeat).2
          (((sm.assignSeat).2.nextSectionIdx + i)
            % (sm.assignSeat).2.sectionOrder.length) := by
      intro i hi
      have hidxeq : ((sm.assignSeat).2.nextSectionIdx + i)
          % (sm.assignSeat).2.sectionOrder.length
          = (sm.nextSectionIdx + (i + 1)) % sm.sectionOrder.length := by
        rw [hcurP, hordP, Nat.mod_add_mod]
        congr 1
        omega
      rw [hidxeq, hvvA _ (hkey (i + 1) (by omega) (by omega))]
      exact hvac (i + 1) (by omega)
    obtain ⟨ihres, ihord, ihcur⟩ := ih (sm.assignSeat).2 hw2 hnP hvacP
    refine ⟨?_, ?_, ?_⟩
    · intro i hi
      rcases i with _ | i
      · refine ⟨s.number, ?_⟩
        show ((sm.assignSeat).1 :: ((sm.assignSeat).2.assignSeats n).1).getD 0
            (.error .noSections)
          = .ok (sm.sectionOrder.getD
              ((sm.nextSectionIdx + 0) % sm.sectionOrder.length) "", s.number)
        simp only [List.getD_cons_zero]
        have h1 : (sm.assignSeat).1 = Except.ok ((sec.name, s.number) : String × Nat) := by
          rw [heq]
        rw [h1, hname, Nat.add_zero, Nat.mod_eq_of_lt hcN]
      · obtain ⟨num, hnum⟩ := ihres i (by omega)
        refine ⟨num, ?_⟩
        show ((sm.assignSeat).1 :: ((sm.assignSeat).2.assignSeats n).1).getD (i + 1)
            (.error .noSections)
          = .ok (sm.sectionOrder.getD
              ((sm.nextSectionIdx + (i + 1)) % sm.sectionOrder.length) "", num)
        simp only [List.getD_cons_succ]
        rw [hnum, hordP, hcurP, Nat.mod_add_mod,
          show sm.nextSectionIdx + 1 + i = sm.nextSectionIdx + (i + 1) from by omega]
    · show ((sm.assignSeat).2.assignSeats n).2.sectionOrder = sm.sectionOrder
      rw [ihord, hordP]
    · show ((sm.assignSeat).2.assignSeats n).2.nextSectionIdx
        = (sm.nextSectionIdx + (n + 1)) % sm.sectionOrder.length
      rw [ihcur, hordP, hcurP, Nat.mod_add_mod,
        show sm.nextSectionIdx + 1 + n = sm.nextSectionIdx + (n + 1) from by omega]

/-- Cursor discipline of one call: success advances the cursor to just past
the yielding section, failure leaves the whole state unchanged. -/
theorem assignSeat_cursor {sm : SeatManager} (hw : sm.WF) :
    (∀ name num, (sm.assignSeat).1 = .ok (name, num) →
      ∃ idx, idx < sm.sectionOrder.length ∧ name = sm.sectionOrder.getD idx "" ∧
        (sm.assignSeat).2.nextSectionIdx = (idx + 1) % sm.sectionOrder.length)
    ∧ (∀ e, (sm.assignSeat).1 = .error e → (sm.assignSeat).2 = sm) := by
  by_cases h0 : sm.sectionOrder.length = 0
  · have heq : sm.assignSeat = (.error .noSections, sm) := by
      rw [SeatManager.assignSeat, if_pos h0]
    constructor
    · intro name num hok
      rw [heq] at hok
      cases hok
    · intro e _
      rw [heq]
  · have hA : sm.assignSeat = assignLoop sm sm.sectionOrder.length 0 := by
      rw [SeatManager.assignSeat, if_neg h0]
    rcases assignLoop_WF_spec hw rfl 0 with ⟨_, heq⟩ |
      ⟨j, _, hj2, _, sec, m, s, hl, _, _, heq⟩
    · constructor
      · intro name num hok
        rw [hA, heq] at hok
        cases hok
      · intro e _
        rw [hA, heq]
    · constructor
      · intro name num hok
        rw [hA, heq] at hok
        have h' : Except.ok ((sec.name, s.number) : String × Nat) = .ok (name, num) := hok
        simp only [Except.ok.injEq, Prod.mk.injEq] at h'
        refine ⟨(sm.nextSectionIdx + j) % sm.sectionOrder.length,
          Nat.mod_lt _ (by omega), ?_, ?_⟩
        · rw [← h'.1, (SeatManager.WF_lookup hw hl).2]
        · rw [hA, heq]
      · intro e herr
        rw [hA, heq] at herr
        cases herr

/-- **C3.** Round-robin fairness. (a) On the fresh two-section layout A, B
of capacity 20 each, the first four assignments return exactly (A,1),
(B,1), (A,2), (B,2). (b) In any well-formed state whose sections all have
positive vacancy, N consecutive calls (N the number of sections) all
succeed and take the sections in section-order order starting from the
cursor position before the first call, each exactly once. (c) A successful
call advances the cursor to just past the section that yielded the seat,
and a failing call leaves the state — cursor included — unchanged. -/
theorem C3_round_robin (sm : SeatManager) (hw : sm.WF)
    (hvac : ∀ p ∈ sm.sections, 0 < (p.2).vacantSeats) :
    ((newSeatManager [⟨"A", 20⟩, ⟨"B", 20⟩]).assignSeats 4).1
        = [.ok ("A", 1), .ok ("B", 1), .ok ("A", 2), .ok ("B", 2)]
    ∧ (∀ i, i < sm.sectionOrder.length → ∃ num,
        (sm.assignSeats sm.sectionOrder.length).1.getD i (.error .noSections)
          = .ok (sm.sectionOrder.getD
              ((sm.nextSectionIdx + i) % sm.sectionOrder.length) "", num))
    ∧ (∀ name num, (sm.assignSeat).1 = .ok (name, num) →
        ∃ idx, idx < sm.sectionOrder.length ∧ name = sm.sectionOrder.getD idx "" ∧
          (sm.assignSeat).2.nextSectionIdx = (idx + 1) % sm.sectionOrder.length)
    ∧ (∀ e, (sm.assignSeat).1 = .error e → (sm.assignSeat).2 = sm) := by
  refine ⟨by decide, ?_, (assignSeat_cursor hw).1, (assignSeat_cursor hw).2⟩
  have hvacpos : ∀ i, i < sm.sectionOrder.length →
      0 < vacantAt sm ((sm.nextSectionIdx + i) % sm.sectionOrder.length) := by
    intro i hi
    have hidx : (sm.nextSectionIdx + i) % sm.sectionOrder.length
        < sm.sectionOrder.length := Nat.mod_lt _ (by omega)
    rcases sm.lookup_order hw hidx with ⟨sec, hl⟩
    have hpos := hvac _ (alookup_mem hl)
    simp only [vacantAt, hl]
    exact hpos
  exact (assignSeats_rotation sm.sectionOrder.length sm hw (Nat.le_refl _) hvacpos).1

/-- Witness for C3 at the fresh two-section layout, reading off the second
of the two rotation results. -/
theorem C3_round_robin_witness :
    ∃ num, ((newSeatManager [⟨"A", 20⟩, ⟨"B", 20⟩]).assignSeats
        (newSeatManager [⟨"A", 20⟩, ⟨"B", 20⟩]).sectionOrder.length).1.getD 1
        (.error .noSections)
      = .ok ((newSeatManager [⟨"A", 20⟩, ⟨"B", 20⟩]).sectionOrder.getD
          (((newSeatManager [⟨"A", 20⟩, ⟨"B", 20⟩]).nextSectionIdx + 1)
            % (newSeatManager [⟨"A", 20⟩, ⟨"B", 20⟩]).sectionOrder.length) "", num) :=
  (C3_round_robin (newSeatManager [⟨"A", 20⟩, ⟨"B", 20⟩]) (by decide)
    (by decide)).2.1 1 (by decide)

end RailConnect
